import Mathlib

/-!
WeekWise: schedule geometry, scoring and slot store.

A shallow embedding of `src/script.js` (timetable page) and `src/insights.js`
(analytics page), and the properties of the planner's core stated over it.

* Day names are strings and hours are naturals, as in the source.
* The slot store of the analytics page is the value `loadSlots` returned, any JSON value;
  a stored slot and its `type` are JSON values too, read the way the source reads them
  (`slots[id]`, `s?.type || "empty"`, `counts[type]`, `POINTS[type]`).  Using a value as a
  property name converts it to a text, which throws a `TypeError` for an object with an
  own property `toString`; the scoring functions return that exception or their result.
* `Math.round` is taken over exact rationals.  Every quotient the scoring code rounds has
  a denominator of at most 32 (day score) or 7 (week average); its halfway cases are odd
  multiples of 1/8, which binary floating point represents exactly, so rounding the exact
  value and rounding the double agree.
* A property read on an object literal that is not an own property is answered by
  `Object.prototype`; `POINTS[type]` is modelled with that rule.
* For persistence, the stored item is classified by what `JSON.parse` makes of it, and
  `JSON.stringify` followed by `JSON.parse` gives back an object's own properties and an
  array's elements, an infinite number having become `null`.  The two zeros are one
  number, as for `===`.
-/

namespace WeekWise

/-! ## Schedule geometry (identical copies in script.js 14-39 and insights.js 4-17) -/

/-- The constant `DAYS` of insights.js (Monday first). -/
def DAYS : List String :=
  ["Monday", "Tuesday", "Wednesday", "Thursday", "Friday", "Saturday", "Sunday"]

/-- Source: `dayName === "Saturday" || dayName === "Sunday"`. -/
def isWeekend (dayName : String) : Bool :=
  dayName == "Saturday" || dayName == "Sunday"

/-- The loop `for(let h=start; h<end; h++) hours.push(h)`: `fuel` bounds the number of
iterations and is `end - h` at every call. -/
def pushHours (fuel h stop : Nat) (hours : List Nat) : List Nat :=
  match fuel with
  | 0 => hours
  | fuel + 1 => if h < stop then pushHours fuel (h + 1) stop (hours ++ [h]) else hours

/-- Source: `buildHoursForDay`, with `start = isWeekend(dayName) ? 8 : 20` and `end = 24`. -/
def buildHoursForDay (dayName : String) : List Nat :=
  let start := if isWeekend dayName then 8 else 20
  let stop := 24
  pushHours (stop - start) start stop []

/-- Source: the template string with `dayName`, two underscores and `hour`. -/
def slotId (dayName : String) (hour : Nat) : String :=
  dayName ++ "__" ++ toString hour

/-- Source: `clamp(n,a,b) = Math.max(a, Math.min(b, n))` on numbers that are not NaN. -/
def clamp (n a b : ℚ) : ℚ := max a (min b n)

/-! ## JavaScript numbers as far as the scoring code needs them -/

/-- A JavaScript number: `NaN` or a finite value. -/
inductive JsNum where
  | nan
  | val (q : ℚ)
  deriving DecidableEq

/-- `Math.round`: the nearest integer, halves going up; `NaN` stays `NaN`. -/
def JsNum.round : JsNum → JsNum
  | .nan => .nan
  | .val q => .val (⌊q + 1 / 2⌋ : ℤ)

/-- Binary `+` on two numbers. -/
def JsNum.add : JsNum → JsNum → JsNum
  | .val a, .val b => .val (a + b)
  | _, _ => .nan

/-- Binary `/` by a number that is not zero. -/
def JsNum.div : JsNum → ℚ → JsNum
  | .val a, b => .val (a / b)
  | .nan, _ => .nan

/-- Binary `*` by a finite number. -/
def JsNum.mul : JsNum → ℚ → JsNum
  | .val a, b => .val (a * b)
  | .nan, _ => .nan

/-- The function `clamp` of the source applied to a JavaScript number: `Math.min` and
`Math.max` return `NaN` as soon as an argument is `NaN`. -/
def JsNum.clamp : JsNum → ℚ → ℚ → JsNum
  | .val n, a, b => .val (WeekWise.clamp n a b)
  | .nan, _, _ => .nan

/-! ## JSON values and their use as property names -/

/-- A value as `JSON.parse` returns it.  An object is the list of its own properties, in
insertion order.  A numeral beyond the range of doubles parses to an infinity.  Strings
are sequences of Unicode characters; a string with an unpaired surrogate has no
counterpart here, and no name the code compares a string with has one. -/
inductive Json where
  | null
  | bool (b : Bool)
  | num (q : ℚ)
  | inf (negative : Bool)
  | str (s : String)
  | arr (items : List Json)
  | obj (props : List (String × Json))

/-- Truthiness of a value, as `!x`, `x && y` and `x || y` test it. -/
def Json.truthy : Json → Bool
  | .null => false
  | .bool b => b
  | .num q => q != 0
  | .inf _ => true
  | .str s => s != ""
  | .arr _ => true
  | .obj _ => true

/-- The operator `typeof`. -/
def Json.typeof : Json → String
  | .null => "object"
  | .bool _ => "boolean"
  | .num _ => "number"
  | .inf _ => "number"
  | .str _ => "string"
  | .arr _ => "object"
  | .obj _ => "object"

/-- The exception a conversion to a primitive throws. -/
inductive JsError where
  | typeError
  deriving DecidableEq, Repr

deriving instance DecidableEq for Except

/-- The text a value converts to.  The text of a finite number (digits, sign, point,
exponent) and the text of an array of two or more elements (it has a comma) are not
spelled out: neither is a name that `counts`, `POINTS` or `Object.prototype` define. -/
inductive KeyText where
  | exact (s : String)
  | unnamed
  deriving DecidableEq, Repr

mutual
/-- The conversion `ToString`, which `counts[type]` and `POINTS[type]` apply to `type`.
An object answers with `Object.prototype.toString` unless it has an own property
`toString`: a parsed value is never callable, `valueOf` returns the object, and the
conversion throws.  An array answers with `join`. -/
def Json.toText : Json → Except JsError KeyText
  | .null => .ok (.exact "null")
  | .bool true => .ok (.exact "true")
  | .bool false => .ok (.exact "false")
  | .num _ => .ok .unnamed
  | .inf false => .ok (.exact "Infinity")
  | .inf true => .ok (.exact "-Infinity")
  | .str s => .ok (.exact s)
  | .arr items => Json.joinTexts items
  | .obj props =>
    if (props.lookup "toString").isSome then .error .typeError
    else .ok (.exact "[object Object]")
/-- The method `join` of arrays: the texts of the elements with commas between them, the
text of `null` being empty. -/
def Json.joinTexts : List Json → Except JsError KeyText
  | [] => .ok (.exact "")
  | [.null] => .ok (.exact "")
  | [x] => x.toText
  | x :: y :: rest =>
    match x.toText, Json.joinTexts (y :: rest) with
    | .ok _, .ok _ => .ok .unnamed
    | _, _ => .error .typeError
end

/-- The property `name` of a parsed value, `none` for `undefined`.  The names read are
`type` and those `slotId` builds; no primitive, array or prototype has a property of
such a name, so only an own property of an object answers. -/
def Json.getProp (o : Json) (name : String) : Option Json :=
  match o with
  | .obj props => props.lookup name
  | _ => none

/-- Source: the read `slots[id]`.  A read on `null` throws; `loadSlots` never returns
`null`, it falls back to an empty object. -/
def Json.index (o : Json) (id : String) : Except JsError (Option Json) :=
  match o with
  | .null => .error .typeError
  | _ => .ok (o.getProp id)

/-- Source: the comparison `v === s` with a string. -/
def Json.isStr (v : Json) (s : String) : Bool :=
  match v with
  | .str t => t == s
  | _ => false

mutual
/-- The value `JSON.parse` gives back from `JSON.stringify(v)`: `v` with every infinite
number replaced by `null`. -/
def Json.reparsed : Json → Json
  | .inf _ => .null
  | .arr items => .arr (Json.reparsedList items)
  | .obj props => .obj (Json.reparsedProps props)
  | v => v
/-- The elements of an array, each one written and parsed again. -/
def Json.reparsedList : List Json → List Json
  | [] => []
  | x :: xs => x.reparsed :: Json.reparsedList xs
/-- The properties of an object, each value written and parsed again. -/
def Json.reparsedProps : List (String × Json) → List (String × Json)
  | [] => []
  | (k, v) :: ps => (k, v.reparsed) :: Json.reparsedProps ps
end

/-! ## Scoring (insights.js 28-70) -/

/-- Property names every object literal inherits from `Object.prototype`. -/
def objectPrototypeNames : List String :=
  ["constructor", "__defineGetter__", "__defineSetter__", "hasOwnProperty",
   "__lookupGetter__", "__lookupSetter__", "isPrototypeOf", "propertyIsEnumerable",
   "toString", "valueOf", "__proto__", "toLocaleString"]

/-- Result of reading a property of the literal `POINTS`. -/
inductive Looked where
  | num (n : ℤ)
  | inherited
  | undefined
  deriving DecidableEq

/-- Source: `POINTS = { study: 2, essential: 1, nonessential: -1, empty: 0 }`, read by
property name. -/
def POINTS (type : String) : Looked :=
  if type = "study" then .num 2
  else if type = "essential" then .num 1
  else if type = "nonessential" then .num (-1)
  else if type = "empty" then .num 0
  else if type ∈ objectPrototypeNames then .inherited
  else .undefined

/-- Source: `POINTS[type]`, `key` being the text of `type`. -/
def pointsAt (key : KeyText) : Looked :=
  match key with
  | .exact s => POINTS s
  | .unnamed => .undefined

/-- The accumulator `raw`: a number, or the string that `+=` builds once something that
is not a number has been added. -/
inductive Acc where
  | num (n : ℤ)
  | text
  deriving DecidableEq

/-- Source: `raw += (POINTS[type] ?? 0)`. -/
def Acc.addPoints (raw : Acc) (p : Looked) : Acc :=
  match raw, p with
  | .num r, .num n => .num (r + n)
  | .num r, .undefined => .num (r + 0)
  | _, _ => .text

/-- The conversion of `raw` to a number by `/`: a string that is not numeric gives `NaN`. -/
def Acc.toNumber : Acc → JsNum
  | .num r => .val r
  | .text => .nan

/-- The four keys of `counts` that `getWeekStats` and the summary cards read. -/
structure Counts where
  study : Nat
  essential : Nat
  nonessential : Nat
  empty : Nat
  deriving DecidableEq, Repr

/-- The assignment `counts[name] = (counts[name] || 0) + 1` by property name.  A name
outside the four keys writes a key of its own and leaves the four unchanged. -/
def Counts.incr (c : Counts) (type : String) : Counts :=
  if type = "study" then { c with study := c.study + 1 }
  else if type = "essential" then { c with essential := c.essential + 1 }
  else if type = "nonessential" then { c with nonessential := c.nonessential + 1 }
  else if type = "empty" then { c with empty := c.empty + 1 }
  else c

/-- Source: `counts[type] = (counts[type] || 0) + 1`, `key` being the text of `type`. -/
def Counts.incrAt (c : Counts) (key : KeyText) : Counts :=
  match key with
  | .exact s => c.incr s
  | .unnamed => c

/-- Source: `s?.type || "empty"`, where `s` is `slots[id]`; the optional chaining reads
no property of `undefined` and `null`. -/
def slotType (s : Option Json) : Json :=
  match s with
  | none => .str "empty"
  | some s =>
    match s.getProp "type" with
    | none => .str "empty"
    | some t => if t.truthy then t else .str "empty"

/-- The variables the loop of `getDayStats` updates. -/
structure Tally where
  counts : Counts
  raw : Acc
  filled : Nat
  deriving DecidableEq

/-- One iteration of `for(const h of hours)` in `getDayStats`. -/
def tallyHour (slots : Json) (dayName : String) (t : Tally) (h : Nat) :
    Except JsError Tally :=
  match slots.index (slotId dayName h) with
  | .error e => .error e
  | .ok s =>
    let type := slotType s
    match type.toText with
    | .error e => .error e
    | .ok key =>
      .ok { counts := t.counts.incrAt key
            raw := t.raw.addPoints (pointsAt key)
            filled := if type.isStr "empty" then t.filled else t.filled + 1 }

/-- The loop `for(const h of hours)` of `getDayStats`; an exception ends it. -/
def tallyHours (slots : Json) (dayName : String) : Tally → List Nat → Except JsError Tally
  | t, [] => .ok t
  | t, h :: hs =>
    match tallyHour slots dayName t h with
    | .error e => .error e
    | .ok t' => tallyHours slots dayName t' hs

/-- The lines after the loop: `max = filled * 2`, `score = 0`, and under `max > 0` the
rounded and clamped ratio. -/
def scoreOf (raw : Acc) (filled : Nat) : JsNum :=
  let max := filled * 2
  if max > 0 then
    (((raw.toNumber.div (max : ℚ)).mul 100).round).clamp 0 100
  else .val 0

/-- The object `getDayStats` returns. -/
structure DayStats where
  counts : Counts
  raw : Acc
  filled : Nat
  score : JsNum
  totalSlots : Nat
  deriving DecidableEq

/-- Source: `getDayStats(dayName)`, the store `slots` being an argument. -/
def getDayStats (slots : Json) (dayName : String) : Except JsError DayStats :=
  let hours := buildHoursForDay dayName
  match tallyHours slots dayName ⟨⟨0, 0, 0, 0⟩, .num 0, 0⟩ hours with
  | .error e => .error e
  | .ok t =>
    .ok { counts := t.counts, raw := t.raw, filled := t.filled,
          score := scoreOf t.raw t.filled, totalSlots := hours.length }

/-- The variables the `forEach` of `getWeekStats` updates. -/
structure WeekAcc where
  totalCounts : Counts
  scores : List JsNum
  filledTotal : Nat
  deriving DecidableEq

/-- One call of the `forEach` callback of `getWeekStats`. -/
def weekStep (slots : Json) (w : WeekAcc) (d : String) : Except JsError WeekAcc :=
  match getDayStats slots d with
  | .error e => .error e
  | .ok st =>
    .ok { totalCounts :=
            { study := w.totalCounts.study + st.counts.study
              essential := w.totalCounts.essential + st.counts.essential
              nonessential := w.totalCounts.nonessential + st.counts.nonessential
              empty := w.totalCounts.empty + st.counts.empty }
          scores := w.scores ++ [st.score]
          filledTotal := w.filledTotal + st.filled }

/-- The call `DAYS.forEach(...)` of `getWeekStats`; an exception ends it. -/
def weekDays (slots : Json) : WeekAcc → List String → Except JsError WeekAcc
  | w, [] => .ok w
  | w, d :: ds =>
    match weekStep slots w d with
    | .error e => .error e
    | .ok w' => weekDays slots w' ds

/-- The object `getWeekStats` returns. -/
structure WeekStats where
  totalCounts : Counts
  scores : List JsNum
  avgScore : JsNum
  filledTotal : Nat
  deriving DecidableEq

/-- Source: `getWeekStats()`. -/
def getWeekStats (slots : Json) : Except JsError WeekStats :=
  match weekDays slots ⟨⟨0, 0, 0, 0⟩, [], 0⟩ DAYS with
  | .error e => .error e
  | .ok w =>
    let avgScore :=
      if w.scores.length ≠ 0 then
        ((w.scores.foldl JsNum.add (.val 0)).div (w.scores.length : ℚ)).round
      else .val 0
    .ok { totalCounts := w.totalCounts, scores := w.scores, avgScore := avgScore,
          filledTotal := w.filledTotal }

/-- A slot object `{ type, title, notes }` as the editor of script.js writes it: the three
values are strings, read from the form. -/
structure Slot where
  type : String
  title : String
  notes : String
  deriving DecidableEq, Repr

/-- The slot object `{ type, title, notes }` as a value. -/
def Slot.toJson (s : Slot) : Json :=
  .obj [("type", .str s.type), ("title", .str s.title), ("notes", .str s.notes)]

/-- The store with no entry. -/
def emptyStore : Json := .obj []

/-- The store of the worked example: Monday 20 is study, Monday 21 is essential. -/
def exampleStore : Json :=
  .obj [("Monday__20", Slot.toJson ⟨"study", "", ""⟩),
        ("Monday__21", Slot.toJson ⟨"essential", "", ""⟩)]

/-- A store whose only entry, Monday 20, has a type outside the four keys. -/
def gymStore : Json := .obj [("Monday__20", Slot.toJson ⟨"gym", "Workout", ""⟩)]

/-- A store whose only entry, Monday 20, has a type that names an inherited property. -/
def protoStore : Json := .obj [("Monday__20", Slot.toJson ⟨"toString", "", ""⟩)]

/-- A store whose only entry, Monday 20, has an object with an own property `toString`
as its type. -/
def throwingStore : Json :=
  .obj [("Monday__20", .obj [("type", .obj [("toString", .num 1)])])]

/-- A store whose only entry, Monday 20, has the array of the string `empty` as its
type. -/
def arrayTypeStore : Json :=
  .obj [("Monday__20", .obj [("type", .arr [.str "empty"])])]

/-! ## Slot store and persistence (script.js 47-68 and 185-258, insights.js 19-25) -/

/-- What `localStorage.getItem(STORAGE_KEY)` returns, as far as `loadSlots` tells its
values apart: nothing, the empty string, a text on which `JSON.parse` throws, or a text
that `JSON.parse` turns into a value. -/
inductive Item where
  | missing
  | emptyText
  | invalid
  | json (data : Json)

namespace Script

/-- Source: `loadSlots` of script.js. -/
def loadSlots (raw : Item) : Json :=
  match raw with
  | .missing => .obj []
  | .emptyText => .obj []
  | .invalid => .obj []
  | .json data => if data.truthy && data.typeof == "object" then data else .obj []

end Script

namespace Insights

/-- Source: `loadSlots` of insights.js, `JSON.parse(raw) || {}` under `try`. -/
def loadSlots (raw : Item) : Json :=
  match raw with
  | .missing => .obj []
  | .emptyText => .obj []
  | .invalid => .obj []
  | .json data => if data.truthy then data else .obj []

end Insights

/-- The object bound to `slots` in script.js.  It is what `loadSlots` returned, an object
or an array, with the properties assigned since; an array keeps properties whose names
are not indices apart from its elements.  The names used are those `slotId` builds, which
contain two underscores and are never an index nor an inherited name. -/
inductive SlotsObj where
  | object (props : List (String × Json))
  | array (items : List Json) (named : List (String × Json))

/-- The own named properties of `slots`. -/
def SlotsObj.props : SlotsObj → List (String × Json)
  | .object props => props
  | .array _ named => named

/-- Replaces the own named properties of `slots`. -/
def SlotsObj.withProps : SlotsObj → List (String × Json) → SlotsObj
  | .object _, props => .object props
  | .array items _, props => .array items props

/-- Source: the read `slots[id]`, `none` for `undefined`. -/
def SlotsObj.get (o : SlotsObj) (id : String) : Option Json :=
  o.props.lookup id

/-- Source: the assignment `slots[id] = payload`: an existing property keeps its place,
a new one goes last. -/
def SlotsObj.set (o : SlotsObj) (id : String) (v : Json) : SlotsObj :=
  if (o.props.lookup id).isSome then
    o.withProps (o.props.map fun kv => if kv.1 == id then (kv.1, v) else kv)
  else o.withProps (o.props ++ [(id, v)])

/-- Source: `delete slots[id]`. -/
def SlotsObj.delete (o : SlotsObj) (id : String) : SlotsObj :=
  o.withProps (o.props.filter fun kv => !(kv.1 == id))

/-- The value `JSON.parse` gives back from `JSON.stringify(slots)`: all own properties of
an object, and of an array its elements only, each value written and parsed again. -/
def SlotsObj.stringified : SlotsObj → Json
  | .object props => .obj (Json.reparsedProps props)
  | .array items _ => .arr (Json.reparsedList items)

/-- Source: `let slots = loadSlots()`, the returned value as the object `slots`.
`loadSlots` of script.js returns objects and arrays only. -/
def SlotsObj.ofJson : Json → SlotsObj
  | .obj props => .object props
  | .arr items => .array items []
  | _ => .object []

/-- Source: `defaultSlot()`. -/
def defaultSlot : Slot := { type := "empty", title := "", notes := "" }

/-- White space and line terminators, the characters `String.prototype.trim` removes. -/
def isJsSpace (c : Char) : Bool :=
  c.toNat ∈ [0x09, 0x0A, 0x0B, 0x0C, 0x0D, 0x20, 0xA0, 0x1680, 0x2000, 0x2001, 0x2002,
    0x2003, 0x2004, 0x2005, 0x2006, 0x2007, 0x2008, 0x2009, 0x200A, 0x2028, 0x2029,
    0x202F, 0x205F, 0x3000, 0xFEFF]

/-- The method `trim` of strings. -/
def jsTrim (s : String) : String :=
  ⟨((s.data.dropWhile isJsSpace).reverse.dropWhile isJsSpace).reverse⟩

/-- State of the timetable page: the variables `slots`, `activeDay`, `activeHour` and the
item under `STORAGE_KEY` in localStorage. -/
structure Page where
  slots : SlotsObj
  storage : Item
  activeDay : Option String
  activeHour : Option Nat

/-- Source: `saveSlots(slots)`, writing `JSON.stringify(slots)` under the key. -/
def saveSlots (p : Page) : Page :=
  { p with storage := .json p.slots.stringified }

/-- Source: the page start, `let slots = loadSlots()`. -/
def Page.start (storage : Item) : Page :=
  { slots := SlotsObj.ofJson (Script.loadSlots storage), storage := storage,
    activeDay := none, activeHour := none }

/-- Source: the lookup `slots[slotId(dayName, hour)] || defaultSlot()` of `render` and
`openModal`. -/
def getSlot (slots : SlotsObj) (dayName : String) (hour : Nat) : Json :=
  match slots.get (slotId dayName hour) with
  | some data => if data.truthy then data else defaultSlot.toJson
  | none => defaultSlot.toJson

/-- Source: `openModal(dayName, hour)`, as far as the page state goes. -/
def openModal (p : Page) (dayName : String) (hour : Nat) : Page :=
  { p with activeDay := some dayName, activeHour := some hour }

/-- Source: `closeModal()`. -/
def closeModal (p : Page) : Page :=
  { p with activeDay := none, activeHour := none }

/-- Source: `setSlot(dayName, hour, payload)`; `render()` leaves the state alone. -/
def setSlot (p : Page) (dayName : String) (hour : Nat) (payload : Slot) : Page :=
  saveSlots { p with slots := p.slots.set (slotId dayName hour) payload.toJson }

/-- The click handler of `btnSave` from the point where `payload` is built, the cell
`(dayName, hour)` being the active one. -/
def savePayload (p : Page) (dayName : String) (hour : Nat) (payload : Slot) : Page :=
  if payload.type = "empty" ∧ payload.title = "" ∧ payload.notes = "" then
    closeModal (saveSlots { p with slots := p.slots.delete (slotId dayName hour) })
  else
    closeModal (setSlot p dayName hour payload)

/-- Source: the click handler of `btnSave`; the arguments are `typeSelect.value`,
`titleInput.value` and `notesInput.value`. -/
def btnSaveClick (p : Page) (chosen titleValue notesValue : String) : Page :=
  match p.activeDay, p.activeHour with
  | some dayName, some hour =>
    savePayload p dayName hour
      { type := chosen, title := jsTrim titleValue, notes := jsTrim notesValue }
  | _, _ => p

/-- Source: the click handler of `btnDelete`. -/
def btnDeleteClick (p : Page) : Page :=
  match p.activeDay, p.activeHour with
  | some dayName, some hour =>
    closeModal (saveSlots { p with slots := p.slots.delete (slotId dayName hour) })
  | _, _ => p

/-- Source: the click handler of `btnClearAll`: `removeItem`, then `slots = {}`. -/
def btnClearAllClick (p : Page) : Page :=
  { p with storage := .missing, slots := .object [] }

/-- The in-memory store equals what `loadSlots` would read from storage. -/
def synced (p : Page) : Prop :=
  p.slots = SlotsObj.ofJson (Script.loadSlots p.storage)

/-- A user action that changes the store. -/
inductive Action where
  | save (dayName : String) (hour : Nat) (chosen titleValue notesValue : String)
  | saveClick (chosen titleValue notesValue : String)
  | setSlot (dayName : String) (hour : Nat) (payload : Slot)
  | delete (dayName : String) (hour : Nat)
  | deleteClick
  | clearAll

/-- The effect of an action on the page: `save` and `delete` open the cell and click. -/
def Action.run (p : Page) : Action → Page
  | .save d h chosen t n => btnSaveClick (openModal p d h) chosen t n
  | .saveClick chosen t n => btnSaveClick p chosen t n
  | .setSlot d h payload => WeekWise.setSlot p d h payload
  | .delete d h => btnDeleteClick (openModal p d h)
  | .deleteClick => btnDeleteClick p
  | .clearAll => btnClearAllClick p

/-- The page whose storage holds the text of an empty array, after it has started. -/
def arrayPage : Page := Page.start (.json (.arr []))

/-! ## Notions the statements use -/

mutual
/-- No infinite number occurs in the value. -/
def Json.finite : Json → Bool
  | .inf _ => false
  | .arr items => Json.finiteList items
  | .obj props => Json.finiteProps props
  | _ => true
/-- No infinite number occurs in the elements. -/
def Json.finiteList : List Json → Bool
  | [] => true
  | x :: xs => x.finite && Json.finiteList xs
/-- No infinite number occurs in the property values. -/
def Json.finiteProps : List (String × Json) → Bool
  | [] => true
  | (_, v) :: ps => v.finite && Json.finiteProps ps
end

/-- The variable `slots` holds a plain object in which no infinite number occurs. -/
def Page.plain (p : Page) : Prop :=
  ∃ props, p.slots = .object props ∧ Json.finiteProps props = true

/-- No infinite number occurs in the stored item. -/
def Item.finite : Item → Bool
  | .json data => data.finite
  | _ => true

/-- Sum of the four fields of a `counts` object. -/
def Counts.total (c : Counts) : Nat := c.study + c.essential + c.nonessential + c.empty

/-- The value of `type` in the scoring loop at `(dayName, h)`. -/
def typeAt (slots : Json) (dayName : String) (h : Nat) : Json :=
  slotType (slots.getProp (slotId dayName h))

/-- The value is `null`. -/
def Json.isNull : Json → Bool
  | .null => true
  | _ => false

/-- The iteration of the scoring loop at `(dayName, h)` throws nothing: the store is not
`null` and the conversion of the type to a property name returns. -/
def returnsAt (slots : Json) (dayName : String) (h : Nat) : Bool :=
  !slots.isNull &&
    match (typeAt slots dayName h).toText with
    | .ok _ => true
    | .error _ => false

/-- The property name of the type at `(dayName, h)`, when the conversion returns. -/
def keyAt (slots : Json) (dayName : String) (h : Nat) : KeyText :=
  match (typeAt slots dayName h).toText with
  | .ok key => key
  | .error _ => .unnamed

/-- The hour `(dayName, h)` counts as filled: `type !== "empty"`. -/
def filledAt (slots : Json) (dayName : String) (h : Nat) : Bool :=
  !(typeAt slots dayName h).isStr "empty"

/-- A name that is one of the four keys of `counts`. -/
def listed (type : String) : Bool :=
  type == "study" || type == "essential" || type == "nonessential" || type == "empty"

/-- A property name that is one of the four keys of `counts`. -/
def listedKey (key : KeyText) : Bool :=
  match key with
  | .exact s => listed s
  | .unnamed => false

/-- A property name that `Object.prototype` defines. -/
def inheritedKey (key : KeyText) : Bool :=
  match key with
  | .exact s => decide (s ∈ objectPrototypeNames)
  | .unnamed => false

/-- Number of scheduled hours of the week whose type, as a property name, is none of the
four keys. -/
def unlistedHours (slots : Json) : Nat :=
  (DAYS.map fun d => (buildHoursForDay d).countP fun h => !listedKey (keyAt slots d h)).sum

/-- Every conversion of a type to a property name in the week returns. -/
def weekReturns (slots : Json) : Prop :=
  ∀ d ∈ DAYS, ∀ h ∈ buildHoursForDay d, returnsAt slots d h = true

instance (slots : Json) : Decidable (weekReturns slots) := by
  unfold weekReturns
  infer_instance

/-- The points of a property name as a number: the own value in `POINTS`, and 0 for a
name that `POINTS` does not know. -/
def points (key : KeyText) : ℤ :=
  match pointsAt key with
  | .num n => n
  | _ => 0

/-- At every scheduled hour of the day the conversion of the type to a property name
returns, and the name is none that `Object.prototype` defines. -/
def noInheritedName (slots : Json) (dayName : String) : Prop :=
  ∀ h ∈ buildHoursForDay dayName,
    returnsAt slots dayName h = true ∧ inheritedKey (keyAt slots dayName h) = false

instance (slots : Json) (dayName : String) : Decidable (noInheritedName slots dayName) := by
  unfold noInheritedName
  infer_instance

/-- The store with the entry of `(dayName, hour)` replaced by `s`: the assignment
`slots[id] = s` on an object; a store that is not an object has no entry, and the result
is the object with this one. -/
def replaceSlot (slots : Json) (dayName : String) (hour : Nat) (s : Json) : Json :=
  match slots with
  | .obj props => .obj ((SlotsObj.object props).set (slotId dayName hour) s).props
  | _ => .obj [(slotId dayName hour, s)]

/-- The comparison `a <= b` of two numbers: false as soon as one is `NaN`. -/
def JsNum.le : JsNum → JsNum → Bool
  | .val a, .val b => decide (a ≤ b)
  | _, _ => false

/-- The comparison `raw <= n` with `raw` converted to a number. -/
def Acc.leNat (raw : Acc) (n : Nat) : Bool :=
  JsNum.le raw.toNumber (.val n)

/-- One iteration of the scoring loop when the conversion returns. -/
def tallyStep (slots : Json) (dayName : String) (t : Tally) (h : Nat) : Tally :=
  { counts := t.counts.incrAt (keyAt slots dayName h)
    raw := t.raw.addPoints (pointsAt (keyAt slots dayName h))
    filled := if filledAt slots dayName h then t.filled + 1 else t.filled }

/-- The variables of the scoring loop after the hours of the day, when no conversion
throws. -/
def dayTally (slots : Json) (dayName : String) : Tally :=
  (buildHoursForDay dayName).foldl (tallyStep slots dayName) ⟨⟨0, 0, 0, 0⟩, .num 0, 0⟩

/-- The statistics of the day, when no conversion throws. -/
def dayOf (slots : Json) (dayName : String) : DayStats :=
  { counts := (dayTally slots dayName).counts, raw := (dayTally slots dayName).raw,
    filled := (dayTally slots dayName).filled,
    score := scoreOf (dayTally slots dayName).raw (dayTally slots dayName).filled,
    totalSlots := (buildHoursForDay dayName).length }

/-- Sum of the points of the hours `hs` for the property names `key`. -/
def rawSum (key : Nat → KeyText) (hs : List Nat) : ℤ := (hs.map fun h => points (key h)).sum

/-- Number of the hours `hs` that count as filled. -/
def filledCount (fl : Nat → Bool) (hs : List Nat) : Nat := hs.countP fl

/-- The week as `getWeekStats` returns it when no conversion throws, `day` giving the
statistics of each day. -/
def weekOf (day : String → DayStats) : WeekStats :=
  let w : WeekAcc := DAYS.foldl
    (fun w d =>
      { totalCounts :=
          { study := w.totalCounts.study + (day d).counts.study
            essential := w.totalCounts.essential + (day d).counts.essential
            nonessential := w.totalCounts.nonessential + (day d).counts.nonessential
            empty := w.totalCounts.empty + (day d).counts.empty }
        scores := w.scores ++ [(day d).score]
        filledTotal := w.filledTotal + (day d).filled })
    ⟨⟨0, 0, 0, 0⟩, [], 0⟩
  { totalCounts := w.totalCounts, scores := w.scores,
    avgScore :=
      if w.scores.length ≠ 0 then
        ((w.scores.foldl JsNum.add (.val 0)).div (w.scores.length : ℚ)).round
      else .val 0,
    filledTotal := w.filledTotal }

/-! ## Geometry: lemmas -/

theorem buildHoursForDay_weekday {d : String} (h : isWeekend d = false) :
    buildHoursForDay d = [20, 21, 22, 23] := by
  simp only [buildHoursForDay, h]
  decide

theorem buildHoursForDay_weekend {d : String} (h : isWeekend d = true) :
    buildHoursForDay d = [8, 9, 10, 11, 12, 13, 14, 15, 16, 17, 18, 19, 20, 21, 22, 23] := by
  simp only [buildHoursForDay, h]
  decide

set_option maxRecDepth 100000 in
theorem slotId_inj_scheduled : ∀ d1 ∈ DAYS, ∀ d2 ∈ DAYS, ∀ h1 ∈ buildHoursForDay d1,
    ∀ h2 ∈ buildHoursForDay d2, slotId d1 h1 = slotId d2 h2 → d1 = d2 ∧ h1 = h2 := by
  decide

/-! ## Scoring: lemmas -/

theorem round_ratio (r : ℤ) (f : ℕ) (hf : 0 < f) :
    ⌊(r : ℚ) / ((f * 2 : ℕ) : ℚ) * 100 + 1 / 2⌋ = (100 * r + f) / (2 * (f : ℤ)) := by
  have hf' : (f : ℚ) ≠ 0 := by exact_mod_cast hf.ne'
  have h : (r : ℚ) / ((f * 2 : ℕ) : ℚ) * 100 + 1 / 2
      = ((100 * r + f : ℤ) : ℚ) / ((2 * f : ℕ) : ℚ) := by
    push_cast
    field_simp
    ring
  rw [h, Rat.floor_intCast_div_natCast]
  push_cast
  rfl

theorem scoreOf_num (r : ℤ) (f : ℕ) (hf : 0 < f) :
    scoreOf (.num r) f
      = .val ((max 0 (min 100 ((100 * r + f) / (2 * (f : ℤ)))) : ℤ) : ℚ) := by
  have h2 : f * 2 > 0 := by omega
  simp only [scoreOf, h2, if_true, Acc.toNumber, JsNum.div, JsNum.mul, JsNum.round,
    JsNum.clamp, clamp]
  rw [round_ratio r f hf]
  push_cast
  rfl

theorem scoreOf_zero (raw : Acc) : scoreOf raw 0 = .val 0 := by
  simp [scoreOf]

theorem scoreOf_text (f : ℕ) (hf : 0 < f) : scoreOf .text f = .nan := by
  have h2 : f * 2 > 0 := by omega
  simp [scoreOf, h2, Acc.toNumber, JsNum.div, JsNum.mul, JsNum.round, JsNum.clamp]

/-! ## Geometry: theorems -/

/-- C6: for each of the seven days the list of hours is not empty and strictly ascending,
it is 20..23 when `isWeekend` is false and 8..23 when it is true, and `isWeekend` is true
exactly for Saturday and Sunday (false exactly for Monday to Friday). -/
theorem buildHoursForDay_spec (D : String) (hD : D ∈ DAYS) :
    buildHoursForDay D ≠ [] ∧ (buildHoursForDay D).Pairwise (· < ·) ∧
    (isWeekend D = false → buildHoursForDay D = [20, 21, 22, 23]) ∧
    (isWeekend D = true → buildHoursForDay D
      = [8, 9, 10, 11, 12, 13, 14, 15, 16, 17, 18, 19, 20, 21, 22, 23]) ∧
    (isWeekend D = true ↔ D = "Saturday" ∨ D = "Sunday") ∧
    (isWeekend D = false ↔
      D ∈ ["Monday", "Tuesday", "Wednesday", "Thursday", "Friday"]) := by
  simp only [DAYS, List.mem_cons, List.mem_singleton, List.not_mem_nil, or_false] at hD
  rcases hD with rfl | rfl | rfl | rfl | rfl | rfl | rfl <;> decide

theorem buildHoursForDay_spec_witness :
    buildHoursForDay "Saturday"
      = [8, 9, 10, 11, 12, 13, 14, 15, 16, 17, 18, 19, 20, 21, 22, 23] :=
  (buildHoursForDay_spec "Saturday" (by decide)).2.2.2.1 (by decide)

/-- C7: on scheduled pairs `slotId` is injective, and it depends on the day name and the
hour only (equal arguments give equal identifiers). -/
theorem slotId_injective (d1 d2 : String) (h1 h2 : Nat) (hd1 : d1 ∈ DAYS) (hd2 : d2 ∈ DAYS)
    (hh1 : h1 ∈ buildHoursForDay d1) (hh2 : h2 ∈ buildHoursForDay d2) :
    (slotId d1 h1 = slotId d2 h2 → d1 = d2 ∧ h1 = h2) ∧
    (d1 = d2 → h1 = h2 → slotId d1 h1 = slotId d2 h2) :=
  ⟨slotId_inj_scheduled d1 hd1 d2 hd2 h1 hh1 h2 hh2, fun hd hh => by rw [hd, hh]⟩

theorem slotId_injective_witness :
    "Saturday" ∈ DAYS ∧ 8 ∈ buildHoursForDay "Saturday" ∧
    slotId "Saturday" 8 = "Saturday__8" ∧ ("Saturday" = "Saturday" ∧ 8 = 8) :=
  ⟨by decide, by decide, by decide,
    (slotId_injective "Saturday" "Saturday" 8 8 (by decide) (by decide) (by decide)
      (by decide)).1 rfl⟩


/-! ## Scoring: worked examples -/

/-- C8: with Monday 20 study and Monday 21 essential as the only entries, Monday has
counts 1, 1, 0, 2, two filled hours, raw 3 (study is worth 2 and essential 1) and
score 75. -/
theorem getDayStats_example :
    getDayStats exampleStore "Monday"
      = .ok { counts := { study := 1, essential := 1, nonessential := 0, empty := 2 },
              raw := .num 3, filled := 2, score := .val 75, totalSlots := 4 } ∧
    POINTS "study" = .num 2 ∧ POINTS "essential" = .num 1 := by
  have ht : tallyHours exampleStore "Monday" ⟨⟨0, 0, 0, 0⟩, .num 0, 0⟩
      (buildHoursForDay "Monday") = .ok ⟨⟨1, 1, 0, 2⟩, .num 3, 2⟩ := by decide
  have hl : (buildHoursForDay "Monday").length = 4 := by decide
  have hs : scoreOf (.num 3) 2 = .val 75 := by
    rw [scoreOf_num 3 2 (by decide)]
    norm_num
  refine ⟨?_, by decide, by decide⟩
  simp only [getDayStats, ht, hl, hs]

/-- C9: for the empty store the week has average 0, no filled hour, seven scores 0 and
counts 0, 0, 0, 52; each day has no filled hour, so its score is the initial 0 and no
division takes place, and the average is a number. -/
theorem getWeekStats_empty :
    getWeekStats emptyStore
      = .ok { totalCounts := { study := 0, essential := 0, nonessential := 0, empty := 52 },
              scores := List.replicate 7 (.val 0), avgScore := .val 0, filledTotal := 0 } ∧
    ∀ d ∈ DAYS, ∃ st, getDayStats emptyStore d = .ok st ∧ st.filled * 2 = 0 ∧
      st.score = .val 0 := by
  have ht : ∀ d ∈ DAYS, tallyHours emptyStore d ⟨⟨0, 0, 0, 0⟩, .num 0, 0⟩
      (buildHoursForDay d) = .ok ⟨⟨0, 0, 0, (buildHoursForDay d).length⟩, .num 0, 0⟩ := by
    decide
  have hday : ∀ d ∈ DAYS, getDayStats emptyStore d
      = .ok ⟨⟨0, 0, 0, (buildHoursForDay d).length⟩, .num 0, 0, .val 0,
          (buildHoursForDay d).length⟩ := by
    intro d hd
    simp only [getDayStats, ht d hd, scoreOf_zero]
  have h4 : ∀ d, isWeekend d = false → (buildHoursForDay d).length = 4 := fun d h => by
    rw [buildHoursForDay_weekday h]; rfl
  have h16 : ∀ d, isWeekend d = true → (buildHoursForDay d).length = 16 := fun d h => by
    rw [buildHoursForDay_weekend h]; rfl
  refine ⟨?_, fun d hd => ⟨_, hday d hd, rfl, rfl⟩⟩
  simp only [getWeekStats, weekDays, DAYS, weekStep,
    hday "Monday" (by decide), hday "Tuesday" (by decide), hday "Wednesday" (by decide),
    hday "Thursday" (by decide), hday "Friday" (by decide), hday "Saturday" (by decide),
    hday "Sunday" (by decide),
    h4 "Monday" (by decide), h4 "Tuesday" (by decide), h4 "Wednesday" (by decide),
    h4 "Thursday" (by decide), h4 "Friday" (by decide), h16 "Saturday" (by decide),
    h16 "Sunday" (by decide)]
  simp [List.replicate, List.foldl, JsNum.add, JsNum.div, JsNum.round]
  norm_num

/-! ## The scoring loop -/

theorem index_of_not_null (slots : Json) (id : String) (h : slots.isNull = false) :
    slots.index id = .ok (slots.getProp id) := by
  cases slots <;> first | rfl | cases h

theorem tallyHour_ok (slots : Json) (d : String) (t : Tally) (h : Nat)
    (hr : returnsAt slots d h = true) :
    tallyHour slots d t h = .ok (tallyStep slots d t h) := by
  simp only [returnsAt, typeAt, Bool.and_eq_true, Bool.not_eq_true'] at hr
  obtain ⟨hnn, hr⟩ := hr
  simp only [tallyHour, index_of_not_null slots _ hnn, tallyStep, keyAt, filledAt, typeAt]
  generalize (slotType (slots.getProp (slotId d h))).toText = r at hr ⊢
  cases r with
  | error e => simp at hr
  | ok key =>
    by_cases hs : (slotType (slots.getProp (slotId d h))).isStr "empty" = true
    · simp [hs]
    · simp [hs]

theorem tallyHour_error (slots : Json) (d : String) (t : Tally) (h : Nat)
    (hr : returnsAt slots d h = false) :
    tallyHour slots d t h = .error .typeError := by
  cases hnn : slots.isNull with
  | true =>
    cases slots <;> first | rfl | cases hnn
  | false =>
    simp only [returnsAt, typeAt, hnn, Bool.not_false, Bool.true_and] at hr
    simp only [tallyHour, index_of_not_null slots _ hnn]
    generalize (slotType (slots.getProp (slotId d h))).toText = r at hr ⊢
    cases r with
    | error e => cases e; rfl
    | ok key => simp at hr

theorem tallyHours_ok (slots : Json) (d : String) (hs : List Nat) (t : Tally)
    (hr : ∀ h ∈ hs, returnsAt slots d h = true) :
    tallyHours slots d t hs = .ok (hs.foldl (tallyStep slots d) t) := by
  induction hs generalizing t with
  | nil => rfl
  | cons h hs ih =>
    rw [tallyHours, tallyHour_ok slots d t h (hr h (List.mem_cons_self _ _))]
    exact ih _ (fun h' hh' => hr h' (List.mem_cons_of_mem _ hh'))

theorem tallyHours_error (slots : Json) (d : String) (hs : List Nat) (t : Tally)
    (hr : ∃ h ∈ hs, returnsAt slots d h = false) :
    tallyHours slots d t hs = .error .typeError := by
  induction hs generalizing t with
  | nil => obtain ⟨h, hh, _⟩ := hr; cases hh
  | cons h hs ih =>
    rw [tallyHours]
    cases hret : returnsAt slots d h with
    | false => rw [tallyHour_error slots d t h hret]
    | true =>
      rw [tallyHour_ok slots d t h hret]
      obtain ⟨h', hh', hf⟩ := hr
      rcases List.mem_cons.mp hh' with he | hm
      · rw [he, hret] at hf; cases hf
      · exact ih _ ⟨h', hm, hf⟩

theorem getDayStats_ok (slots : Json) (d : String)
    (hr : ∀ h ∈ buildHoursForDay d, returnsAt slots d h = true) :
    getDayStats slots d = .ok (dayOf slots d) := by
  simp only [getDayStats, tallyHours_ok slots d _ _ hr]
  rfl

theorem getDayStats_error (slots : Json) (d : String)
    (hr : ∃ h ∈ buildHoursForDay d, returnsAt slots d h = false) :
    getDayStats slots d = .error .typeError := by
  simp only [getDayStats, tallyHours_error slots d _ _ hr]

theorem getDayStats_ok_or_error (slots : Json) (d : String) :
    getDayStats slots d = .ok (dayOf slots d) ∨ getDayStats slots d = .error .typeError := by
  by_cases hr : ∀ h ∈ buildHoursForDay d, returnsAt slots d h = true
  · exact Or.inl (getDayStats_ok slots d hr)
  · refine Or.inr (getDayStats_error slots d ?_)
    push_neg at hr
    obtain ⟨h, hh, hf⟩ := hr
    exact ⟨h, hh, by simpa using hf⟩

theorem getWeekStats_ok (slots : Json) (hr : weekReturns slots) :
    getWeekStats slots = .ok (weekOf (dayOf slots)) := by
  have hd := fun d hd => getDayStats_ok slots d (hr d hd)
  simp only [getWeekStats, weekDays, DAYS, weekStep,
    hd "Monday" (by decide), hd "Tuesday" (by decide), hd "Wednesday" (by decide),
    hd "Thursday" (by decide), hd "Friday" (by decide), hd "Saturday" (by decide),
    hd "Sunday" (by decide)]
  rfl

theorem weekDays_error (slots : Json) (ds : List String) (w : WeekAcc)
    (he : ∃ d ∈ ds, getDayStats slots d = .error .typeError) :
    weekDays slots w ds = .error .typeError := by
  induction ds generalizing w with
  | nil => obtain ⟨d, hd, _⟩ := he; cases hd
  | cons d ds ih =>
    rw [weekDays]
    rcases getDayStats_ok_or_error slots d with hok | herr
    · simp only [weekStep, hok]
      obtain ⟨d', hd', hf⟩ := he
      rcases List.mem_cons.mp hd' with e | hm
      · rw [e, hok] at hf; cases hf
      · exact ih _ ⟨d', hm, hf⟩
    · simp only [weekStep, herr]

/-- When the type of a slot at a scheduled hour cannot be converted to a property name,
`getWeekStats` ends with the `TypeError` and returns nothing. -/
theorem getWeekStats_error (slots : Json) (hr : ¬ weekReturns slots) :
    getWeekStats slots = .error .typeError := by
  unfold weekReturns at hr
  push_neg at hr
  obtain ⟨d, hd, h, hh, hf⟩ := hr
  have he := getDayStats_error slots d ⟨h, hh, by simpa using hf⟩
  simp only [getWeekStats, weekDays_error slots DAYS _ ⟨d, hd, he⟩]

/-! ## Week totals -/

theorem Counts.total_incr (c : Counts) (type : String) :
    (c.incr type).total + (if listed type then 0 else 1) = c.total + 1 := by
  unfold Counts.incr listed Counts.total
  by_cases h1 : type = "study"
  · simp [h1]; omega
  by_cases h2 : type = "essential"
  · simp [h2]; omega
  by_cases h3 : type = "nonessential"
  · simp [h3]; omega
  by_cases h4 : type = "empty"
  · simp [h4]; omega
  simp [h1, h2, h3, h4]

theorem Counts.total_incrAt (c : Counts) (key : KeyText) :
    (c.incrAt key).total + (if listedKey key then 0 else 1) = c.total + 1 := by
  cases key with
  | exact s => exact Counts.total_incr c s
  | unnamed => simp [Counts.incrAt, listedKey]

theorem tally_counts_total (slots : Json) (d : String) (hs : List Nat) (t : Tally) :
    (hs.foldl (tallyStep slots d) t).counts.total
        + hs.countP (fun h => !listedKey (keyAt slots d h))
      = t.counts.total + hs.length := by
  induction hs generalizing t with
  | nil => simp
  | cons h hs ih =>
    have ih' := ih (tallyStep slots d t h)
    have hstep : (tallyStep slots d t h).counts.total
        + (if listedKey (keyAt slots d h) then 0 else 1) = t.counts.total + 1 :=
      Counts.total_incrAt t.counts (keyAt slots d h)
    rw [List.foldl_cons, List.countP_cons, List.length_cons]
    by_cases hl : listedKey (keyAt slots d h) = true
    · rw [if_pos hl] at hstep
      simp only [hl, Bool.not_true, Bool.false_eq_true, if_false]
      omega
    · rw [if_neg hl] at hstep
      simp only [Bool.not_eq_true] at hl
      simp only [hl, Bool.not_false, if_true]
      omega

theorem dayOf_counts_total (slots : Json) (d : String) :
    (dayOf slots d).counts.total
        + (buildHoursForDay d).countP (fun h => !listedKey (keyAt slots d h))
      = (buildHoursForDay d).length := by
  have h := tally_counts_total slots d (buildHoursForDay d) ⟨⟨0, 0, 0, 0⟩, .num 0, 0⟩
  simpa [dayOf, dayTally, Counts.total] using h

theorem weekOf_totalCounts_total (day : String → DayStats) :
    (weekOf day).totalCounts.total = (DAYS.map fun d => (day d).counts.total).sum := by
  simp only [weekOf, DAYS, List.foldl, Counts.total, List.map, List.sum_cons, List.sum_nil]
  omega

theorem weekOf_sum (slots : Json) :
    (weekOf (dayOf slots)).totalCounts.total + unlistedHours slots = 52 ∧
    ((weekOf (dayOf slots)).totalCounts.total = 52 ↔
      ∀ d ∈ DAYS, ∀ h ∈ buildHoursForDay d, listedKey (keyAt slots d h) = true) := by
  have hsum := weekOf_totalCounts_total (dayOf slots)
  have hlen : (DAYS.map fun d => (buildHoursForDay d).length).sum = 52 := by decide
  have hd := fun d => dayOf_counts_total slots d
  have key : (weekOf (dayOf slots)).totalCounts.total + unlistedHours slots = 52 := by
    rw [hsum, ← hlen]
    simp only [unlistedHours, DAYS, List.map, List.sum_cons, List.sum_nil]
    have h1 := hd "Monday"
    have h2 := hd "Tuesday"
    have h3 := hd "Wednesday"
    have h4 := hd "Thursday"
    have h5 := hd "Friday"
    have h6 := hd "Saturday"
    have h7 := hd "Sunday"
    omega
  refine ⟨key, ?_⟩
  have hz : unlistedHours slots = 0 ↔
      ∀ d ∈ DAYS, ∀ h ∈ buildHoursForDay d, listedKey (keyAt slots d h) = true := by
    simp only [unlistedHours, List.sum_eq_zero_iff, List.mem_map, forall_exists_index,
      and_imp, forall_apply_eq_imp_iff₂, List.countP_eq_zero, Bool.not_eq_true',
      Bool.not_eq_false]
  rw [← hz]
  omega

/-- C2 (counterexample): a single stored slot whose type is not one of the four keys is
counted under a key of its own, and the four fields of the week total 51. -/
theorem totalCounts_gym_not_52 :
    ∃ w, getWeekStats gymStore = .ok w ∧
      w.totalCounts.study + w.totalCounts.essential + w.totalCounts.nonessential
        + w.totalCounts.empty = 51 ∧
      w.totalCounts.study + w.totalCounts.essential + w.totalCounts.nonessential
        + w.totalCounts.empty ≠ 52 :=
  ⟨_, getWeekStats_ok gymStore (by decide), by decide, by decide⟩

/-- C2 (amended): for every content of the slot store on which `getWeekStats` returns,
which it does when no conversion of a slot type to a property name throws, the fields
study + essential + nonessential + empty of the week totals, plus the number of scheduled
hours whose type, as a property name, is none of the four keys, is 52; the four fields
sum to 52 exactly when at every scheduled hour that name is one of the four. -/
theorem totalCounts_sum (slots : Json) (hret : weekReturns slots) :
    ∃ w, getWeekStats slots = .ok w ∧
      w.totalCounts.study + w.totalCounts.essential + w.totalCounts.nonessential
        + w.totalCounts.empty + unlistedHours slots = 52 ∧
      (w.totalCounts.study + w.totalCounts.essential + w.totalCounts.nonessential
        + w.totalCounts.empty = 52 ↔
        ∀ d ∈ DAYS, ∀ h ∈ buildHoursForDay d, listedKey (keyAt slots d h) = true) :=
  ⟨_, getWeekStats_ok slots hret, (weekOf_sum slots).1, (weekOf_sum slots).2⟩

theorem totalCounts_sum_witness :
    ∃ w, getWeekStats arrayTypeStore = .ok w ∧
      w.totalCounts.study + w.totalCounts.essential + w.totalCounts.nonessential
        + w.totalCounts.empty + unlistedHours arrayTypeStore = 52 ∧
      (w.totalCounts.study + w.totalCounts.essential + w.totalCounts.nonessential
        + w.totalCounts.empty = 52 ↔
        ∀ d ∈ DAYS, ∀ h ∈ buildHoursForDay d,
          listedKey (keyAt arrayTypeStore d h) = true) :=
  totalCounts_sum arrayTypeStore (by decide)

/-- The week totals on three stores: an object with an own `toString` as a type makes
`getWeekStats` throw; the array of the string `empty` as a type is counted under `empty`
and as filled, the four fields totalling 52; a type `gym` leaves them at 51. -/
theorem getWeekStats_on_other_types :
    getWeekStats throwingStore = .error .typeError ∧
    (∃ w, getWeekStats arrayTypeStore = .ok w ∧ w.totalCounts = ⟨0, 0, 0, 52⟩ ∧
      w.filledTotal = 1) ∧
    unlistedHours arrayTypeStore = 0 ∧ unlistedHours gymStore = 1 :=
  ⟨getWeekStats_error throwingStore (by decide),
    ⟨_, getWeekStats_ok arrayTypeStore (by decide), by decide, by decide⟩,
    by decide, by decide⟩

/-! ## Loading the store -/

/-- What `loadSlots` of script.js does with each kind of stored item other than an array:
an empty object when there is no item, when the text is empty or does not parse, and when
it parses to null, a boolean, a number or a string; the parsed object itself for an
object. -/
theorem script_loadSlots_cases :
    Script.loadSlots .missing = .obj [] ∧ Script.loadSlots .emptyText = .obj [] ∧
    Script.loadSlots .invalid = .obj [] ∧ Script.loadSlots (.json .null) = .obj [] ∧
    (∀ b, Script.loadSlots (.json (.bool b)) = .obj []) ∧
    (∀ q, Script.loadSlots (.json (.num q)) = .obj []) ∧
    (∀ t, Script.loadSlots (.json (.str t)) = .obj []) ∧
    (∀ props, Script.loadSlots (.json (.obj props)) = .obj props) ∧
    (∀ n, Script.loadSlots (.json (.inf n)) = .obj []) := by
  refine ⟨rfl, rfl, rfl, rfl, fun b => ?_, fun q => ?_, fun t => ?_, fun props => rfl,
    fun n => ?_⟩
  · cases b <;> rfl
  · simp [Script.loadSlots, Json.typeof]
  · simp [Script.loadSlots, Json.typeof]
  · simp [Script.loadSlots, Json.typeof]

/-- What `loadSlots` of insights.js does with the items that are missing, empty, not
parsable, or parse to a falsy value or to an object. -/
theorem insights_loadSlots_cases :
    Insights.loadSlots .missing = .obj [] ∧ Insights.loadSlots .emptyText = .obj [] ∧
    Insights.loadSlots .invalid = .obj [] ∧ Insights.loadSlots (.json .null) = .obj [] ∧
    Insights.loadSlots (.json (.bool false)) = .obj [] ∧
    Insights.loadSlots (.json (.num 0)) = .obj [] ∧
    Insights.loadSlots (.json (.str "")) = .obj [] ∧
    (∀ props, Insights.loadSlots (.json (.obj props)) = .obj props) := by
  refine ⟨rfl, rfl, rfl, rfl, rfl, ?_, ?_, fun props => rfl⟩
  · simp [Insights.loadSlots, Json.truthy]
  · simp [Insights.loadSlots, Json.truthy]

/-- The value `loadSlots` of script.js returns is an object or an array. -/
theorem script_loadSlots_object_or_array (raw : Item) :
    (∃ props, Script.loadSlots raw = .obj props) ∨
    (∃ items, Script.loadSlots raw = .arr items) := by
  cases raw with
  | missing => exact Or.inl ⟨[], rfl⟩
  | emptyText => exact Or.inl ⟨[], rfl⟩
  | invalid => exact Or.inl ⟨[], rfl⟩
  | json data =>
    cases data with
    | null => exact Or.inl ⟨[], rfl⟩
    | bool b => exact Or.inl ⟨[], by cases b <;> rfl⟩
    | num q => exact Or.inl ⟨[], by simp [Script.loadSlots, Json.typeof]⟩
    | inf n => exact Or.inl ⟨[], by simp [Script.loadSlots, Json.typeof]⟩
    | str t => exact Or.inl ⟨[], by simp [Script.loadSlots, Json.typeof]⟩
    | arr items => exact Or.inr ⟨items, rfl⟩
    | obj props => exact Or.inl ⟨props, rfl⟩

/-- C3 (the code at the failing inputs): a stored text that parses to an array comes back
from `loadSlots` of script.js as that array, not as an empty mapping, and `loadSlots` of
insights.js hands back a number, a string, `true` or an array unchanged. -/
theorem loadSlots_not_reset :
    Script.loadSlots (.json (.arr [.num 1, .num 2])) = .arr [.num 1, .num 2] ∧
    Script.loadSlots (.json (.arr [.num 1, .num 2])) ≠ .obj [] ∧
    Script.loadSlots (.json (.arr [])) ≠ .obj [] ∧
    Insights.loadSlots (.json (.num 5)) = .num 5 ∧
    Insights.loadSlots (.json (.str "week")) = .str "week" ∧
    Insights.loadSlots (.json (.bool true)) = .bool true ∧
    Insights.loadSlots (.json (.arr [])) = .arr [] := by
  refine ⟨rfl, ?_, ?_, ?_, ?_, rfl, rfl⟩
  · intro h; cases h
  · intro h; cases h
  · simp [Insights.loadSlots, Json.truthy]
  · simp [Insights.loadSlots, Json.truthy]

/-! ## Set and get -/

theorem lookup_replace (props : List (String × Json)) (id : String) (v : Json)
    (h : (props.lookup id).isSome = true) :
    (props.map fun kv => if kv.1 == id then (kv.1, v) else kv).lookup id = some v := by
  induction props with
  | nil => simp at h
  | cons kv props ih =>
    obtain ⟨k, w⟩ := kv
    by_cases hk : id = k
    · subst hk
      have hid : (id == id) = true := by simp
      simp only [List.map_cons, hid, if_true]
      rw [List.lookup_cons, hid]
    · have hk' : (id == k) = false := by simpa using hk
      have hk'' : (k == id) = false := by simpa using fun e : k = id => hk e.symm
      rw [List.lookup_cons, hk'] at h
      simp only [List.map_cons, hk'', Bool.false_eq_true, if_false]
      rw [List.lookup_cons, hk']
      exact ih h

theorem lookup_append_new (props : List (String × Json)) (id : String) (v : Json)
    (h : (props.lookup id).isSome = false) :
    (props ++ [(id, v)]).lookup id = some v := by
  induction props with
  | nil => simp [List.lookup]
  | cons kv props ih =>
    obtain ⟨k, w⟩ := kv
    by_cases hk : id = k
    · subst hk
      simp [List.lookup] at h
    · have hk' : (id == k) = false := by simpa using hk
      rw [List.lookup_cons, hk'] at h
      rw [List.cons_append, List.lookup_cons, hk']
      exact ih h

theorem lookup_filter_out (props : List (String × Json)) (id : String) :
    (props.filter fun kv => !(kv.1 == id)).lookup id = none := by
  induction props with
  | nil => rfl
  | cons kv props ih =>
    obtain ⟨k, w⟩ := kv
    by_cases hk : id = k
    · subst hk
      simpa [List.filter] using ih
    · have hk' : (id == k) = false := by simpa using hk
      have hk'' : (k == id) = false := by simpa using fun e : k = id => hk e.symm
      simp only [List.filter, hk'', Bool.not_false]
      rw [List.lookup_cons, hk']
      exact ih

theorem SlotsObj.props_withProps (o : SlotsObj) (props : List (String × Json)) :
    (o.withProps props).props = props := by
  cases o <;> rfl

theorem SlotsObj.get_set (o : SlotsObj) (id : String) (v : Json) :
    (o.set id v).get id = some v := by
  unfold SlotsObj.set SlotsObj.get
  by_cases h : (o.props.lookup id).isSome = true
  · rw [if_pos h, SlotsObj.props_withProps]
    exact lookup_replace _ _ _ h
  · rw [if_neg h, SlotsObj.props_withProps]
    exact lookup_append_new _ _ _ (Bool.eq_false_iff.mpr h)

theorem SlotsObj.get_delete (o : SlotsObj) (id : String) :
    (o.delete id).get id = none := by
  unfold SlotsObj.delete SlotsObj.get
  rw [SlotsObj.props_withProps]
  exact lookup_filter_out _ _

theorem getSlot_setSlot (p : Page) (day : String) (hour : Nat) (s : Slot) :
    getSlot (setSlot p day hour s).slots day hour = s.toJson := by
  simp [getSlot, setSlot, saveSlots, SlotsObj.get_set, Slot.toJson, Json.truthy]

theorem savePayload_default (p : Page) (day : String) (hour : Nat) (s : Slot)
    (h : s.type = "empty" ∧ s.title = "" ∧ s.notes = "") :
    (savePayload p day hour s).slots.get (slotId day hour) = none := by
  simp [savePayload, h, closeModal, saveSlots, SlotsObj.get_delete]

theorem getSlot_savePayload (p : Page) (day : String) (hour : Nat) (s : Slot) :
    getSlot (savePayload p day hour s).slots day hour = s.toJson := by
  by_cases h : s.type = "empty" ∧ s.title = "" ∧ s.notes = ""
  · have hs : s = defaultSlot := by
      obtain ⟨t, ti, n⟩ := s
      obtain ⟨h1, h2, h3⟩ := h
      simp only at h1 h2 h3
      simp [defaultSlot, h1, h2, h3]
    have hnone := savePayload_default p day hour s h
    simp only [getSlot, hnone]
    rw [hs]
  · have hsave : savePayload p day hour s = closeModal (setSlot p day hour s) := by
      simp [savePayload, h]
    rw [hsave]
    exact getSlot_setSlot p day hour s

/-- C4: after a set at `(day, hour)` with slot `s` (the save handler from the payload on,
`setSlot` alone, or a click on save with the form values that make `s`), the lookup
`slots[slotId(day,hour)] || defaultSlot()` returns an object with the type, title and
notes of `s`; when `s` has type empty and blank title and notes, the handler leaves no
entry under the key and the lookup returns the default slot. -/
theorem set_then_get (p : Page) (day : String) (hour : Nat) (s : Slot) :
    getSlot (savePayload p day hour s).slots day hour = s.toJson ∧
    getSlot (setSlot p day hour s).slots day hour = s.toJson ∧
    (∀ chosen titleValue notesValue,
      getSlot (btnSaveClick (openModal p day hour) chosen titleValue notesValue).slots
          day hour
        = Slot.toJson ⟨chosen, jsTrim titleValue, jsTrim notesValue⟩) ∧
    ((s.type = "empty" ∧ s.title = "" ∧ s.notes = "") →
      (savePayload p day hour s).slots.get (slotId day hour) = none ∧
      getSlot (savePayload p day hour s).slots day hour = defaultSlot.toJson) := by
  refine ⟨getSlot_savePayload p day hour s, getSlot_setSlot p day hour s, ?_, ?_⟩
  · intro chosen titleValue notesValue
    exact getSlot_savePayload (openModal p day hour) day hour _
  · intro h
    have hnone := savePayload_default p day hour s h
    refine ⟨hnone, ?_⟩
    simp only [getSlot, hnone]

/-! ## In-memory store and persisted store -/

mutual
theorem Json.reparsed_of_finite : ∀ v : Json, v.finite = true → v.reparsed = v
  | .null, _ => rfl
  | .bool _, _ => rfl
  | .num _, _ => rfl
  | .inf _, h => by simp [Json.finite] at h
  | .str _, _ => rfl
  | .arr items, h => by
    simp only [Json.finite] at h
    simp only [Json.reparsed, Json.reparsedList_of_finite items h]
  | .obj props, h => by
    simp only [Json.finite] at h
    simp only [Json.reparsed, Json.reparsedProps_of_finite props h]
theorem Json.reparsedList_of_finite :
    ∀ items : List Json, Json.finiteList items = true → Json.reparsedList items = items
  | [], _ => rfl
  | x :: xs, h => by
    simp only [Json.finiteList, Bool.and_eq_true] at h
    simp only [Json.reparsedList, Json.reparsed_of_finite x h.1,
      Json.reparsedList_of_finite xs h.2]
theorem Json.reparsedProps_of_finite :
    ∀ props : List (String × Json), Json.finiteProps props = true →
      Json.reparsedProps props = props
  | [], _ => rfl
  | (k, v) :: ps, h => by
    simp only [Json.finiteProps, Bool.and_eq_true] at h
    simp only [Json.reparsedProps, Json.reparsed_of_finite v h.1,
      Json.reparsedProps_of_finite ps h.2]
end

theorem finiteProps_eq_all (props : List (String × Json)) :
    Json.finiteProps props = props.all fun kv => kv.2.finite := by
  induction props with
  | nil => rfl
  | cons kv props ih =>
    obtain ⟨k, w⟩ := kv
    simp only [Json.finiteProps, List.all_cons, ih]

theorem finiteProps_replace (props : List (String × Json)) (id : String) (v : Json)
    (hp : Json.finiteProps props = true) (hv : v.finite = true) :
    Json.finiteProps (props.map fun kv => if kv.1 == id then (kv.1, v) else kv) = true := by
  rw [finiteProps_eq_all, List.all_eq_true] at *
  intro kv hkv
  obtain ⟨kv', hkv', rfl⟩ := List.mem_map.mp hkv
  split
  · exact hv
  · exact hp kv' hkv'

theorem finiteProps_append (props : List (String × Json)) (id : String) (v : Json)
    (hp : Json.finiteProps props = true) (hv : v.finite = true) :
    Json.finiteProps (props ++ [(id, v)]) = true := by
  rw [finiteProps_eq_all, List.all_eq_true] at *
  intro kv hkv
  rcases List.mem_append.mp hkv with h | h
  · exact hp kv h
  · rw [List.mem_singleton.mp h]
    exact hv

theorem finiteProps_filter (props : List (String × Json)) (id : String)
    (hp : Json.finiteProps props = true) :
    Json.finiteProps (props.filter fun kv => !(kv.1 == id)) = true := by
  rw [finiteProps_eq_all, List.all_eq_true] at *
  intro kv hkv
  exact hp kv (List.mem_filter.mp hkv).1

theorem Slot.toJson_finite (s : Slot) : s.toJson.finite = true := rfl

theorem plain_set (p : Page) (h : p.plain) (id : String) (s : Slot) :
    Page.plain { p with slots := p.slots.set id s.toJson } := by
  obtain ⟨props, hp, hf⟩ := h
  simp only [Page.plain, hp, SlotsObj.set, SlotsObj.props, SlotsObj.withProps]
  split
  · exact ⟨_, rfl, finiteProps_replace props id _ hf (Slot.toJson_finite s)⟩
  · exact ⟨_, rfl, finiteProps_append props id _ hf (Slot.toJson_finite s)⟩

theorem plain_delete (p : Page) (h : p.plain) (id : String) :
    Page.plain { p with slots := p.slots.delete id } := by
  obtain ⟨props, hp, hf⟩ := h
  simp only [Page.plain, hp, SlotsObj.delete, SlotsObj.props, SlotsObj.withProps]
  exact ⟨_, rfl, finiteProps_filter props id hf⟩

theorem synced_saveSlots (p : Page) (h : p.plain) :
    synced (saveSlots p) ∧ (saveSlots p).plain := by
  obtain ⟨props, hp, hf⟩ := h
  refine ⟨?_, props, hp, hf⟩
  simp [synced, saveSlots, hp, SlotsObj.stringified, Json.reparsedProps_of_finite props hf,
    Script.loadSlots, Json.truthy, Json.typeof, SlotsObj.ofJson]

theorem synced_closeModal (p : Page) (h : synced p ∧ p.plain) :
    synced (closeModal p) ∧ (closeModal p).plain := h

theorem synced_setSlot (p : Page) (h : p.plain) (day : String) (hour : Nat) (s : Slot) :
    synced (setSlot p day hour s) ∧ (setSlot p day hour s).plain :=
  synced_saveSlots _ (plain_set p h _ s)

theorem synced_deleteSave (p : Page) (h : p.plain) (id : String) :
    synced (closeModal (saveSlots { p with slots := p.slots.delete id })) ∧
    (closeModal (saveSlots { p with slots := p.slots.delete id })).plain :=
  synced_closeModal _ (synced_saveSlots _ (plain_delete p h id))

theorem synced_savePayload (p : Page) (h : p.plain) (day : String) (hour : Nat) (s : Slot) :
    synced (savePayload p day hour s) ∧ (savePayload p day hour s).plain := by
  unfold savePayload
  split
  · exact synced_deleteSave p h _
  · exact synced_closeModal _ (synced_setSlot p h day hour s)

theorem synced_btnSaveClick (p : Page) (hs : synced p) (h : p.plain)
    (chosen titleValue notesValue : String) :
    synced (btnSaveClick p chosen titleValue notesValue) ∧
    (btnSaveClick p chosen titleValue notesValue).plain := by
  unfold btnSaveClick
  split
  · exact synced_savePayload p h _ _ _
  · exact ⟨hs, h⟩

theorem synced_btnDeleteClick (p : Page) (hs : synced p) (h : p.plain) :
    synced (btnDeleteClick p) ∧ (btnDeleteClick p).plain := by
  unfold btnDeleteClick
  split
  · exact synced_deleteSave p h _
  · exact ⟨hs, h⟩

theorem synced_openModal (p : Page) (day : String) (hour : Nat) (h : synced p ∧ p.plain) :
    synced (openModal p day hour) ∧ (openModal p day hour).plain := h

/-- Persist on every write: from a page whose `slots` is a plain object without infinite
numbers, equal to what `loadSlots` would read, every action ends in such a page; after
clear all, the object is empty and there is no stored item. -/
theorem synced_preserved (p : Page) (a : Action) (hs : synced p) (h : p.plain) :
    synced (a.run p) ∧ (a.run p).plain ∧
    ((Action.clearAll).run p).slots = .object [] ∧
    Script.loadSlots ((Action.clearAll).run p).storage = .obj [] := by
  refine ⟨?_, ?_, rfl, rfl⟩
  · cases a with
    | save d hr c t n =>
      exact (synced_btnSaveClick _ (synced_openModal p d hr ⟨hs, h⟩).1
        (synced_openModal p d hr ⟨hs, h⟩).2 c t n).1
    | saveClick c t n => exact (synced_btnSaveClick p hs h c t n).1
    | setSlot d hr s => exact (synced_setSlot p h d hr s).1
    | delete d hr =>
      exact (synced_btnDeleteClick _ (synced_openModal p d hr ⟨hs, h⟩).1
        (synced_openModal p d hr ⟨hs, h⟩).2).1
    | deleteClick => exact (synced_btnDeleteClick p hs h).1
    | clearAll => rfl
  · cases a with
    | save d hr c t n =>
      exact (synced_btnSaveClick _ (synced_openModal p d hr ⟨hs, h⟩).1
        (synced_openModal p d hr ⟨hs, h⟩).2 c t n).2
    | saveClick c t n => exact (synced_btnSaveClick p hs h c t n).2
    | setSlot d hr s => exact (synced_setSlot p h d hr s).2
    | delete d hr =>
      exact (synced_btnDeleteClick _ (synced_openModal p d hr ⟨hs, h⟩).1
        (synced_openModal p d hr ⟨hs, h⟩).2).2
    | deleteClick => exact (synced_btnDeleteClick p hs h).2
    | clearAll => exact ⟨[], rfl, rfl⟩

/-- A page started on a stored object without infinite numbers, or on an item that
`loadSlots` resets, is in sync and holds a plain object. -/
theorem synced_start (raw : Item) (h : ∀ items, raw ≠ .json (.arr items))
    (hf : raw.finite = true) :
    synced (Page.start raw) ∧ (Page.start raw).plain := by
  refine ⟨rfl, ?_⟩
  cases raw with
  | missing => exact ⟨[], rfl, rfl⟩
  | emptyText => exact ⟨[], rfl, rfl⟩
  | invalid => exact ⟨[], rfl, rfl⟩
  | json data =>
    cases data with
    | null => exact ⟨[], rfl, rfl⟩
    | bool b => cases b <;> exact ⟨[], rfl, rfl⟩
    | num q => exact ⟨[], by simp [Page.start, Script.loadSlots, Json.typeof, SlotsObj.ofJson],
        rfl⟩
    | inf n => exact ⟨[], by simp [Page.start, Script.loadSlots, Json.typeof, SlotsObj.ofJson],
        rfl⟩
    | str t => exact ⟨[], by simp [Page.start, Script.loadSlots, Json.typeof, SlotsObj.ofJson],
        rfl⟩
    | arr items => exact absurd rfl (h items)
    | obj props => exact ⟨props, rfl, by simpa [Item.finite, Json.finite] using hf⟩

/-- A stored infinite number is written back as `null`: the page started on the text
`{"x":1e400}` is in sync, and after a save of Monday 20 the stored value of `x` is `null`
while `slots.x` is still infinite. -/
theorem save_with_infinity_diverges :
    synced (Page.start (.json (.obj [("x", .inf false)]))) ∧
    ¬ synced ((Action.save "Monday" 20 "study" "" "").run
      (Page.start (.json (.obj [("x", .inf false)])))) := by
  refine ⟨rfl, ?_⟩
  have hrun : (Action.save "Monday" 20 "study" "" "").run
      (Page.start (.json (.obj [("x", .inf false)])))
      = { slots := .object [("x", .inf false),
            ("Monday__20", Slot.toJson ⟨"study", "", ""⟩)],
          storage := .json (.obj [("x", .null),
            ("Monday__20", Slot.toJson ⟨"study", "", ""⟩)]),
          activeDay := none, activeHour := none } := by
    rfl
  rw [hrun]
  intro h
  simp [synced, Script.loadSlots, Json.truthy, Json.typeof, SlotsObj.ofJson] at h

/-- C5 (the code at the failing input): the page started on the stored text of an empty
array is in sync; after the user saves Monday 20 as study, `slots` holds the entry, the
stored text is still that of an empty array, and the two have diverged: a reload would
show Monday 20 as the default slot. -/
theorem save_on_array_diverges :
    synced arrayPage ∧
    ¬ synced ((Action.save "Monday" 20 "study" "" "").run arrayPage) ∧
    getSlot ((Action.save "Monday" 20 "study" "" "").run arrayPage).slots "Monday" 20
      = Slot.toJson ⟨"study", "", ""⟩ ∧
    getSlot (Page.start ((Action.save "Monday" 20 "study" "" "").run arrayPage).storage).slots
      "Monday" 20 = defaultSlot.toJson := by
  have hrun : (Action.save "Monday" 20 "study" "" "").run arrayPage
      = { slots := .array [] [("Monday__20", Slot.toJson ⟨"study", "", ""⟩)],
          storage := .json (.arr []), activeDay := none, activeHour := none } := by
    rfl
  rw [hrun]
  refine ⟨rfl, ?_, rfl, rfl⟩
  intro h
  simp [synced, Script.loadSlots, Json.truthy, Json.typeof, SlotsObj.ofJson] at h


/-! ## Day score -/

theorem points_bounds (key : KeyText) (h : inheritedKey key = false) :
    ((pointsAt key = .num (points key)) ∨ (pointsAt key = .undefined ∧ points key = 0)) ∧
    points key ≤ 2 ∧ -1 ≤ points key := by
  cases key with
  | unnamed => simp [points, pointsAt]
  | exact s =>
    simp only [inheritedKey, decide_eq_false_iff_not] at h
    unfold points pointsAt POINTS
    by_cases h1 : s = "study"
    · subst h1; decide
    by_cases h2 : s = "essential"
    · subst h2; decide
    by_cases h3 : s = "nonessential"
    · subst h3; decide
    by_cases h4 : s = "empty"
    · subst h4; decide
    simp [h1, h2, h3, h4, h]

theorem keyAt_of_not_filled (slots : Json) (d : String) (h : Nat)
    (hf : filledAt slots d h = false) : keyAt slots d h = .exact "empty" := by
  simp only [filledAt, Bool.not_eq_false'] at hf
  unfold keyAt
  cases ht : typeAt slots d h with
  | str t =>
    rw [ht] at hf
    have : t = "empty" := by simpa [Json.isStr] using hf
    rw [this]
    rfl
  | null => rw [ht] at hf; cases hf
  | bool b => rw [ht] at hf; cases hf
  | num q => rw [ht] at hf; cases hf
  | inf n => rw [ht] at hf; cases hf
  | arr items => rw [ht] at hf; cases hf
  | obj props => rw [ht] at hf; cases hf

theorem points_filled_bounds (slots : Json) (d : String) (h : Nat)
    (hi : inheritedKey (keyAt slots d h) = false) :
    points (keyAt slots d h) ≤ 2 * (if filledAt slots d h then 1 else 0) ∧
    -(if filledAt slots d h then 1 else 0) ≤ points (keyAt slots d h) := by
  cases hf : filledAt slots d h with
  | true =>
    have hb := (points_bounds _ hi).2
    simp only [if_true]
    omega
  | false =>
    rw [keyAt_of_not_filled slots d h hf]
    decide

theorem addPoints_num (r : ℤ) (key : KeyText) (h : inheritedKey key = false) :
    (Acc.num r).addPoints (pointsAt key) = .num (r + points key) := by
  rcases (points_bounds key h).1 with hp | ⟨hp, h0⟩
  · rw [hp]; rfl
  · rw [hp, h0]; rfl

theorem rawSum_cons (key : Nat → KeyText) (h : Nat) (hs : List Nat) :
    rawSum key (h :: hs) = points (key h) + rawSum key hs := by
  simp [rawSum]

theorem filledCount_cons (fl : Nat → Bool) (h : Nat) (hs : List Nat) :
    filledCount fl (h :: hs) = filledCount fl hs + (if fl h then 1 else 0) := by
  simp [filledCount, List.countP_cons]

theorem tally_fold (slots : Json) (d : String) (hs : List Nat) (t : Tally) (r : ℤ)
    (hr : t.raw = .num r) (hc : ∀ h ∈ hs, inheritedKey (keyAt slots d h) = false) :
    (hs.foldl (tallyStep slots d) t).raw = .num (r + rawSum (keyAt slots d) hs) ∧
    (hs.foldl (tallyStep slots d) t).filled
      = t.filled + filledCount (filledAt slots d) hs := by
  induction hs generalizing t r with
  | nil => simp [rawSum, filledCount, hr]
  | cons h hs ih =>
    have hch := hc h (List.mem_cons_self _ _)
    have hraw : (tallyStep slots d t h).raw = .num (r + points (keyAt slots d h)) := by
      simp only [tallyStep, hr]
      exact addPoints_num r _ hch
    have hfilled : (tallyStep slots d t h).filled
        = t.filled + (if filledAt slots d h then 1 else 0) := by
      simp only [tallyStep]
      split <;> rfl
    have ih' := ih (tallyStep slots d t h) _ hraw
      (fun h' hh' => hc h' (List.mem_cons_of_mem _ hh'))
    rw [List.foldl_cons, ih'.1, ih'.2, rawSum_cons, filledCount_cons, hfilled]
    refine ⟨?_, by omega⟩
    congr 1
    ring

theorem rawSum_bounds (slots : Json) (d : String) (hs : List Nat)
    (hc : ∀ h ∈ hs, inheritedKey (keyAt slots d h) = false) :
    rawSum (keyAt slots d) hs ≤ 2 * (filledCount (filledAt slots d) hs : ℤ) ∧
    -(filledCount (filledAt slots d) hs : ℤ) ≤ rawSum (keyAt slots d) hs := by
  induction hs with
  | nil => simp [rawSum, filledCount]
  | cons h hs ih =>
    have ih' := ih (fun h' hh' => hc h' (List.mem_cons_of_mem _ hh'))
    have hb := points_filled_bounds slots d h (hc h (List.mem_cons_self _ _))
    rw [rawSum_cons, filledCount_cons]
    cases hf : filledAt slots d h with
    | true =>
      simp only [hf, if_true] at hb ⊢
      push_cast
      omega
    | false =>
      simp only [hf, Bool.false_eq_true, if_false] at hb ⊢
      omega

theorem dayOf_raw_filled (slots : Json) (d : String)
    (hc : ∀ h ∈ buildHoursForDay d, inheritedKey (keyAt slots d h) = false) :
    (dayOf slots d).raw = .num (rawSum (keyAt slots d) (buildHoursForDay d)) ∧
    (dayOf slots d).filled = filledCount (filledAt slots d) (buildHoursForDay d) := by
  have h := tally_fold slots d (buildHoursForDay d) ⟨⟨0, 0, 0, 0⟩, .num 0, 0⟩ 0 rfl hc
  simpa [dayOf, dayTally] using h

/-- The day score over every store in which, at each scheduled hour of the day, the type
converts to a property name that `Object.prototype` does not define: `getDayStats`
returns, `raw` is a number between `-filled` and `2 * filled`, and the score is an integer
in [0,100], 0 when no hour is filled and the rounded ratio clamped to [0,100] otherwise. -/
theorem getDayStats_score_range (slots : Json) (d : String)
    (hc : noInheritedName slots d) :
    ∃ (st : DayStats) (r n : ℤ), getDayStats slots d = .ok st ∧ st.raw = .num r ∧
      r ≤ 2 * (st.filled : ℤ) ∧ -(st.filled : ℤ) ≤ r ∧
      st.score = .val n ∧ 0 ≤ n ∧ n ≤ 100 ∧
      (st.filled = 0 → n = 0) ∧
      (0 < st.filled →
        (n : ℚ) = clamp (⌊(r : ℚ) / ((st.filled * 2 : ℕ) : ℚ) * 100 + 1 / 2⌋ : ℤ) 0 100) := by
  have hok := getDayStats_ok slots d (fun h hh => (hc h hh).1)
  obtain ⟨hraw, hfilled⟩ := dayOf_raw_filled slots d (fun h hh => (hc h hh).2)
  have hb := rawSum_bounds slots d (buildHoursForDay d) (fun h hh => (hc h hh).2)
  rw [← hfilled] at hb
  have hscore : (dayOf slots d).score
      = scoreOf (dayOf slots d).raw (dayOf slots d).filled := rfl
  rw [hraw] at hscore
  rcases Nat.eq_zero_or_pos (dayOf slots d).filled with h0 | hpos
  · refine ⟨_, _, 0, hok, hraw, hb.1, hb.2, ?_, le_refl _, by norm_num, fun _ => rfl, ?_⟩
    · rw [hscore, h0]
      simpa using scoreOf_zero _
    · intro h
      omega
  · rw [scoreOf_num _ _ hpos] at hscore
    refine ⟨_, _, _, hok, hraw, hb.1, hb.2, hscore, le_max_left _ _,
      max_le (by norm_num) (min_le_left _ _), fun h => by omega, fun _ => ?_⟩
    rw [round_ratio _ _ hpos]
    simp [clamp]

theorem getDayStats_score_range_witness :
    ∃ (st : DayStats) (r n : ℤ), getDayStats arrayTypeStore "Monday" = .ok st ∧
      st.raw = .num r ∧ r ≤ 2 * (st.filled : ℤ) ∧ -(st.filled : ℤ) ≤ r ∧
      st.score = .val n ∧ 0 ≤ n ∧ n ≤ 100 ∧
      (st.filled = 0 → n = 0) ∧
      (0 < st.filled →
        (n : ℚ) = clamp (⌊(r : ℚ) / ((st.filled * 2 : ℕ) : ℚ) * 100 + 1 / 2⌋ : ℤ) 0 100) :=
  getDayStats_score_range arrayTypeStore "Monday" (by decide)

/-- C1 (the code at the failing input): with a stored slot of type `toString` on
Monday 20, `POINTS[type]` is the inherited function, `raw` becomes a string, one hour is
filled and the score of Monday is `NaN`, not an integer in [0,100]. -/
theorem score_nan_on_inherited_name :
    POINTS "toString" = .inherited ∧
    ∃ st, getDayStats protoStore "Monday" = .ok st ∧
      st.raw = .text ∧ st.filled = 1 ∧ st.score = .nan ∧ ∀ n : ℤ, st.score ≠ .val n := by
  have ht : tallyHours protoStore "Monday" ⟨⟨0, 0, 0, 0⟩, .num 0, 0⟩
      (buildHoursForDay "Monday") = .ok ⟨⟨0, 0, 0, 3⟩, .text, 1⟩ := by decide
  have hs : scoreOf .text 1 = .nan := scoreOf_text 1 (by decide)
  refine ⟨by decide, ⟨⟨0, 0, 0, 3⟩, .text, 1, .nan, 4⟩, ?_, rfl, rfl, rfl, fun n h => ?_⟩
  · simp only [getDayStats, ht, hs]
    rfl
  · cases h

/-! ## Monotonicity in study -/

theorem sums_replace (key key' : Nat → KeyText) (fl fl' : Nat → Bool) (h0 : Nat)
    (hs : List Nat) (hnd : hs.Nodup)
    (hsame : ∀ h ∈ hs, h ≠ h0 → key' h = key h ∧ fl' h = fl h)
    (hstudy : key' h0 = .exact "study" ∧ fl' h0 = true) :
    (h0 ∉ hs → rawSum key' hs = rawSum key hs ∧ filledCount fl' hs = filledCount fl hs) ∧
    (h0 ∈ hs → rawSum key' hs = rawSum key hs - points (key h0) + 2 ∧
      filledCount fl' hs + (if fl h0 then 1 else 0) = filledCount fl hs + 1) := by
  induction hs with
  | nil => simp [rawSum, filledCount]
  | cons h hs ih =>
    rw [List.nodup_cons] at hnd
    have ih' := ih hnd.2 (fun h' hh' => hsame h' (List.mem_cons_of_mem _ hh'))
    simp only [rawSum_cons, filledCount_cons]
    by_cases hh : h = h0
    · subst hh
      have hrest := ih'.1 hnd.1
      refine ⟨fun hn => absurd (List.mem_cons_self _ _) hn, fun _ => ?_⟩
      have hp : points (.exact "study") = 2 := by decide
      rw [hrest.1, hrest.2, hstudy.1, hstudy.2, hp]
      refine ⟨by ring, ?_⟩
      simp only [if_true]
      omega
    · have hty := hsame h (List.mem_cons_self _ _) hh
      rw [hty.1, hty.2]
      refine ⟨fun hn => ?_, fun hin => ?_⟩
      · have hn' : h0 ∉ hs := fun hm => hn (List.mem_cons_of_mem _ hm)
        rw [(ih'.1 hn').1, (ih'.1 hn').2]
        exact ⟨rfl, rfl⟩
      · have hin' : h0 ∈ hs := by
          rcases List.mem_cons.mp hin with he | hm
          · exact absurd he.symm hh
          · exact hm
        have hrest := ih'.2 hin'
        rw [hrest.1]
        refine ⟨by ring, ?_⟩
        omega

theorem scoreInt_mono_raw (r r' : ℤ) (f : ℕ) (hf : 0 < f) (hr : r ≤ r') :
    max 0 (min 100 ((100 * r + f) / (2 * (f : ℤ))))
      ≤ max 0 (min 100 ((100 * r' + f) / (2 * (f : ℤ)))) := by
  have hpos : (0 : ℤ) < 2 * (f : ℤ) := by omega
  have hdiv : (100 * r + f) / (2 * (f : ℤ)) ≤ (100 * r' + f) / (2 * (f : ℤ)) :=
    Int.ediv_le_ediv hpos (by omega)
  omega

theorem scoreInt_mono_fill (r : ℤ) (f : ℕ) (hf : 0 < f) (hr : r ≤ 2 * (f : ℤ)) :
    max 0 (min 100 ((100 * r + f) / (2 * (f : ℤ))))
      ≤ max 0 (min 100 ((100 * (r + 2) + (f + 1 : ℕ)) / (2 * ((f + 1 : ℕ) : ℤ)))) := by
  have hpos : (0 : ℤ) < 2 * (f : ℤ) := by omega
  have hpos' : (0 : ℤ) < 2 * ((f + 1 : ℕ) : ℤ) := by push_cast; omega
  have hq : (100 * r + f) / (2 * (f : ℤ)) * (2 * (f : ℤ)) ≤ 100 * r + f :=
    Int.ediv_mul_le _ (by omega)
  have hq100 : (100 * r + f) / (2 * (f : ℤ)) ≤ 100 := by
    have : (100 * r + f) / (2 * (f : ℤ)) < 101 := by
      rw [Int.ediv_lt_iff_lt_mul hpos]
      omega
    omega
  have hdiv : (100 * r + f) / (2 * (f : ℤ))
      ≤ (100 * (r + 2) + (f + 1 : ℕ)) / (2 * ((f + 1 : ℕ) : ℤ)) := by
    rw [Int.le_ediv_iff_mul_le hpos']
    push_cast
    nlinarith
  omega

theorem buildHoursForDay_nodup (d : String) : (buildHoursForDay d).Nodup := by
  cases h : isWeekend d
  · rw [buildHoursForDay_weekday h]; decide
  · rw [buildHoursForDay_weekend h]; decide

theorem lookup_replace_ne (props : List (String × Json)) (id id' : String) (v : Json)
    (hne : id' ≠ id) :
    (props.map fun kv => if kv.1 == id then (kv.1, v) else kv).lookup id'
      = props.lookup id' := by
  induction props with
  | nil => rfl
  | cons kv props ih =>
    obtain ⟨k, w⟩ := kv
    by_cases hk : (k == id) = true
    · have hkid : k = id := by simpa using hk
      have hk' : (id' == k) = false := by simpa [hkid] using hne
      simp only [List.map_cons, hk, if_true]
      rw [List.lookup_cons, List.lookup_cons, hk', ih]
    · simp only [List.map_cons, hk, Bool.false_eq_true, if_false]
      rw [List.lookup_cons, List.lookup_cons, ih]

theorem lookup_append_ne (props : List (String × Json)) (id id' : String) (v : Json)
    (hne : id' ≠ id) : (props ++ [(id, v)]).lookup id' = props.lookup id' := by
  induction props with
  | nil =>
    have hk' : (id' == id) = false := by simpa using hne
    simp [List.lookup, hk']
  | cons kv props ih =>
    obtain ⟨k, w⟩ := kv
    rw [List.cons_append, List.lookup_cons, List.lookup_cons, ih]

theorem getProp_replaceSlot (slots : Json) (d : String) (h0 : Nat) (s : Json) :
    (replaceSlot slots d h0 s).getProp (slotId d h0) = some s ∧
    ∀ id, id ≠ slotId d h0 → (replaceSlot slots d h0 s).getProp id = slots.getProp id := by
  have hobj : ∀ props : List (String × Json),
      (replaceSlot (.obj props) d h0 s).getProp (slotId d h0) = some s ∧
      ∀ id, id ≠ slotId d h0 →
        (replaceSlot (.obj props) d h0 s).getProp id = (Json.obj props).getProp id := by
    intro props
    refine ⟨SlotsObj.get_set (.object props) (slotId d h0) s, fun id hne => ?_⟩
    by_cases hsome : (props.lookup (slotId d h0)).isSome = true
    · simp only [replaceSlot, Json.getProp, SlotsObj.set, SlotsObj.props, hsome, if_true,
        SlotsObj.withProps]
      exact lookup_replace_ne props _ _ s hne
    · simp only [replaceSlot, Json.getProp, SlotsObj.set, SlotsObj.props, hsome,
        Bool.false_eq_true, if_false, SlotsObj.withProps]
      exact lookup_append_ne props _ _ s hne
  have hother : ∀ id, id ≠ slotId d h0 →
      List.lookup id [(slotId d h0, s)] = none := by
    intro id hne
    have hk' : (id == slotId d h0) = false := by simpa using hne
    simp [List.lookup, hk']
  cases slots with
  | obj props => exact hobj props
  | null => exact ⟨by simp [replaceSlot, Json.getProp, List.lookup], hother⟩
  | bool b => exact ⟨by simp [replaceSlot, Json.getProp, List.lookup], hother⟩
  | num q => exact ⟨by simp [replaceSlot, Json.getProp, List.lookup], hother⟩
  | inf n => exact ⟨by simp [replaceSlot, Json.getProp, List.lookup], hother⟩
  | str t => exact ⟨by simp [replaceSlot, Json.getProp, List.lookup], hother⟩
  | arr items => exact ⟨by simp [replaceSlot, Json.getProp, List.lookup], hother⟩

theorem typeAt_replaceSlot (slots : Json) (d : String) (h0 : Nat) (x : Slot)
    (hd : d ∈ DAYS) (hh0 : h0 ∈ buildHoursForDay d) (hx : x.type = "study") :
    typeAt (replaceSlot slots d h0 x.toJson) d h0 = .str "study" ∧
    ∀ h ∈ buildHoursForDay d, h ≠ h0 →
      typeAt (replaceSlot slots d h0 x.toJson) d h = typeAt slots d h := by
  obtain ⟨hget, hrest⟩ := getProp_replaceSlot slots d h0 x.toJson
  refine ⟨?_, fun h hh hne => ?_⟩
  · simp only [typeAt, hget]
    simp [slotType, Slot.toJson, Json.getProp, List.lookup, Json.truthy, hx]
  · have hid : slotId d h ≠ slotId d h0 := fun e =>
      hne (slotId_inj_scheduled d hd d hd h hh h0 hh0 e).2
    simp only [typeAt, hrest _ hid]

theorem noInheritedName_replaceSlot (slots : Json) (d : String) (h0 : Nat) (x : Slot)
    (hd : d ∈ DAYS) (hh0 : h0 ∈ buildHoursForDay d) (hx : x.type = "study")
    (hc : noInheritedName slots d) : noInheritedName (replaceSlot slots d h0 x.toJson) d := by
  obtain ⟨hst, hsame⟩ := typeAt_replaceSlot slots d h0 x hd hh0 hx
  intro h hh
  have hnn : (replaceSlot slots d h0 x.toJson).isNull = false := by
    cases slots <;> rfl
  by_cases hne : h = h0
  · subst hne
    simp only [returnsAt, keyAt, hst, hnn]
    decide
  · have hold := hc h hh
    simp only [returnsAt, keyAt, Bool.and_eq_true] at hold
    simp only [returnsAt, keyAt, hsame h hh hne, hnn, Bool.not_false, Bool.true_and]
    exact ⟨hold.1.2, hold.2⟩

/-- The day score is monotone in study over every store in which, at each scheduled hour
of the day, the type converts to a property name that `Object.prototype` does not define:
replacing the slot of a scheduled hour by a study slot does not lower the score;
`raw <= 2 * filled` holds, and the rounded ratio never exceeds 100. -/
theorem score_monotone_study (slots : Json) (d : String) (h0 : Nat) (x : Slot)
    (hd : d ∈ DAYS) (hh0 : h0 ∈ buildHoursForDay d) (hx : x.type = "study")
    (hc : noInheritedName slots d) :
    ∃ st st', getDayStats slots d = .ok st ∧
      getDayStats (replaceSlot slots d h0 x.toJson) d = .ok st' ∧
      JsNum.le st.score st'.score = true ∧
      st.raw.leNat (2 * st.filled) = true ∧
      ∀ r : ℤ, st.raw = .num r → 0 < st.filled →
        ⌊(r : ℚ) / ((st.filled * 2 : ℕ) : ℚ) * 100 + 1 / 2⌋ ≤ 100 := by
  obtain ⟨hst, hsame⟩ := typeAt_replaceSlot slots d h0 x hd hh0 hx
  have hc' := noInheritedName_replaceSlot slots d h0 x hd hh0 hx hc
  have hok := getDayStats_ok slots d (fun h hh => (hc h hh).1)
  have hok' := getDayStats_ok _ d (fun h hh => (hc' h hh).1)
  refine ⟨_, _, hok, hok', ?_⟩
  obtain ⟨hraw, hfilled⟩ := dayOf_raw_filled slots d (fun h hh => (hc h hh).2)
  obtain ⟨hraw', hfilled'⟩ := dayOf_raw_filled _ d (fun h hh => (hc' h hh).2)
  have hb := rawSum_bounds slots d (buildHoursForDay d) (fun h hh => (hc h hh).2)
  have hrep := (sums_replace (keyAt slots d) (keyAt (replaceSlot slots d h0 x.toJson) d)
    (filledAt slots d) (filledAt (replaceSlot slots d h0 x.toJson) d) h0
    (buildHoursForDay d) (buildHoursForDay_nodup d)
    (fun h hh hne => ⟨by unfold keyAt; rw [hsame h hh hne],
      by unfold filledAt; rw [hsame h hh hne]⟩)
    ⟨by unfold keyAt; rw [hst]; rfl, by unfold filledAt; rw [hst]; rfl⟩).2 hh0
  have hpb := points_filled_bounds slots d h0 (hc h0 hh0).2
  have hscore : ∀ sl : Json, (dayOf sl d).score
      = scoreOf (dayOf sl d).raw (dayOf sl d).filled := fun _ => rfl
  have hfill0 : filledAt slots d h0 = true →
      0 < filledCount (filledAt slots d) (buildHoursForDay d) := fun he =>
    List.countP_pos_iff.mpr ⟨h0, hh0, he⟩
  generalize rawSum (keyAt slots d) (buildHoursForDay d) = r at *
  generalize filledCount (filledAt slots d) (buildHoursForDay d) = f at *
  generalize rawSum (keyAt (replaceSlot slots d h0 x.toJson) d) (buildHoursForDay d)
    = r' at *
  generalize filledCount (filledAt (replaceSlot slots d h0 x.toJson) d) (buildHoursForDay d)
    = f' at *
  refine ⟨?_, ?_, ?_⟩
  · rw [hscore slots, hscore (replaceSlot slots d h0 x.toJson), hraw, hraw', hfilled,
      hfilled']
    have hf' : 0 < f' := by
      cases he : filledAt slots d h0 with
      | false =>
        simp only [he, Bool.false_eq_true, if_false] at hrep
        omega
      | true =>
        have := hfill0 he
        simp only [he, if_true] at hrep
        omega
    rw [scoreOf_num r' f' hf']
    rcases Nat.eq_zero_or_pos f with hf0 | hfpos
    · rw [hf0, scoreOf_zero]
      simp only [JsNum.le, decide_eq_true_eq]
      exact_mod_cast le_max_left _ _
    · rw [scoreOf_num r f hfpos]
      simp only [JsNum.le, decide_eq_true_eq]
      have key : max 0 (min 100 ((100 * r + f) / (2 * (f : ℤ))))
          ≤ max 0 (min 100 ((100 * r' + f') / (2 * (f' : ℤ)))) := by
        cases he : filledAt slots d h0 with
        | false =>
          simp only [he, Bool.false_eq_true, if_false] at hrep hpb
          have hf1 : f' = f + 1 := by omega
          have hr1 : r' = r + 2 := by omega
          rw [hf1, hr1]
          exact scoreInt_mono_fill r f hfpos hb.1
        | true =>
          simp only [he, if_true] at hrep hpb
          have hf1 : f' = f := by omega
          rw [hf1]
          exact scoreInt_mono_raw r r' f hfpos (by omega)
      exact_mod_cast key
  · rw [hraw, hfilled]
    simp only [Acc.leNat, Acc.toNumber, JsNum.le, decide_eq_true_eq]
    exact_mod_cast hb.1
  · intro r0 hr0 hpos
    rw [hraw] at hr0
    cases hr0
    rw [hfilled] at hpos ⊢
    rw [round_ratio r f hpos]
    have hpos2 : (0 : ℤ) < 2 * (f : ℤ) := by omega
    have : (100 * r + f) / (2 * (f : ℤ)) < 101 := by
      rw [Int.ediv_lt_iff_lt_mul hpos2]
      have := hb.1
      omega
    omega

theorem score_monotone_study_witness :
    ∃ st st', getDayStats exampleStore "Monday" = .ok st ∧
      getDayStats (replaceSlot exampleStore "Monday" 22 (Slot.toJson ⟨"study", "", ""⟩))
        "Monday" = .ok st' ∧
      JsNum.le st.score st'.score = true ∧
      st.raw.leNat (2 * st.filled) = true ∧
      ∀ r : ℤ, st.raw = .num r → 0 < st.filled →
        ⌊(r : ℚ) / ((st.filled * 2 : ℕ) : ℚ) * 100 + 1 / 2⌋ ≤ 100 :=
  score_monotone_study exampleStore "Monday" 22 ⟨"study", "", ""⟩ (by decide) (by decide)
    rfl (by decide)

/-- C10 (the code at the failing input): with a stored slot of type `toString` on
Monday 20, `raw` is a string, so `raw <= 2 * filled` is false, and replacing the empty
slot of Monday 21 by a study slot leaves the score `NaN` both before and after: the
comparison `before <= after` is false. -/
theorem study_not_monotone_on_inherited_name :
    ∃ st st', getDayStats protoStore "Monday" = .ok st ∧
      getDayStats (replaceSlot protoStore "Monday" 21 (Slot.toJson ⟨"study", "", ""⟩))
        "Monday" = .ok st' ∧
      st.raw.leNat (2 * st.filled) = false ∧
      st'.score = .nan ∧
      JsNum.le st.score st'.score = false := by
  have ht : tallyHours protoStore "Monday" ⟨⟨0, 0, 0, 0⟩, .num 0, 0⟩
      (buildHoursForDay "Monday") = .ok ⟨⟨0, 0, 0, 3⟩, .text, 1⟩ := by decide
  have ht' : tallyHours
      (replaceSlot protoStore "Monday" 21 (Slot.toJson ⟨"study", "", ""⟩)) "Monday"
      ⟨⟨0, 0, 0, 0⟩, .num 0, 0⟩ (buildHoursForDay "Monday")
      = .ok ⟨⟨1, 0, 0, 2⟩, .text, 2⟩ := by decide
  have hs : scoreOf .text 1 = .nan := scoreOf_text 1 (by decide)
  have hs' : scoreOf .text 2 = .nan := scoreOf_text 2 (by decide)
  refine ⟨⟨⟨0, 0, 0, 3⟩, .text, 1, .nan, 4⟩, ⟨⟨1, 0, 0, 2⟩, .text, 2, .nan, 4⟩,
    ?_, ?_, rfl, rfl, rfl⟩
  · simp only [getDayStats, ht, hs]
    rfl
  · simp only [getDayStats, ht', hs']
    rfl

end WeekWise
